import Mathlib

/-!
# Verification of `sync-ratchakitcha.js`

A shallow embedding of the download-sync pipeline in `src/sync-ratchakitcha.js`
(Royal Gazette Thailand dataset mirror), together with proofs and refutations of
the specification claims about it.

The JavaScript is single-threaded with cooperative async I/O; suspension points
are exactly the `await`s.  We model:

* `fetchWithRetry` (source lines 64-78) as a pure recursion over an *attempt
  oracle* `Nat → Attempt α` giving the outcome of each underlying `fetch` call;
  the model returns the result together with the number of requests issued and
  the list of back-off delays slept.
* the bounded download pool of `downloadPdfs` (lines 249-295) as a small-step
  state machine `PoolStep`: a `start` step dequeues a file and runs the
  synchronous head of `downloadFile` (the `fs.existsSync`/`statSync` check,
  lines 131-137, which happens before the first `await`), a `complete` step
  resolves an in-flight task (the `await fetchWithRetry` / `pipeline` tail of
  `downloadFile` and the bookkeeping in `processNext`, lines 260-278).
* the filesystem as a function from paths (lists of segments, mirroring
  `path.join`) to optional file contents; `existsSync`+`statSync.size > 0`
  becomes `existsNonzero`.
* `downloadMeta`, `verifyDownloads`, `listFiles`, `downloadAndExtractZip` and
  the CLI `main` as pure functions over their inputs (fetch outcomes, directory
  listings, the extraction utility's exit status, argv).
-/

namespace SyncRatchakitcha

/-! ## Retrying fetcher (`fetchWithRetry`, lines 64-78) -/

/-- An HTTP response as seen by `fetchWithRetry`: the `ok` flag (2xx), the
status code and text, and a body of some payload type `α`. -/
structure Response (α : Type) where
  ok : Bool
  status : Nat
  statusText : String
  body : α
deriving Repr, DecidableEq

/-- Outcome of one underlying `fetch(url, options)` call: either the promise
rejected (`thrown`) or a response arrived (`got`). -/
inductive Attempt (α : Type) where
  | thrown (e : String)
  | got (r : Response α)
deriving Repr, DecidableEq

/-- The error message built at line 69: `HTTP ${status}: ${statusText}`. -/
def httpError {α : Type} (r : Response α) : String :=
  "HTTP " ++ toString r.status ++ ": " ++ r.statusText

/-- The error (if any) produced by one loop iteration of `fetchWithRetry`:
a thrown transport error, or the synthesized error for a non-2xx response. -/
def attemptFail {α : Type} : Attempt α → Option String
  | .thrown e => some e
  | .got r => if r.ok then none else some (httpError r)

/-- Result of a `fetchWithRetry` call: the returned value (`Except.ok none`
models the implicit `undefined` return when the loop body never runs,
`Except.error` models a propagated throw), the number of `fetch` requests
actually issued, and the list of back-off sleeps performed (line 75:
`sleep(CONFIG.retryDelay * (i + 1))`). -/
structure RetryTrace (α : Type) where
  result : Except String (Option (Response α))
  requests : Nat
  delays : List Nat
deriving Repr

/-- The `for (let i = 0; i < attempts; i++)` loop of `fetchWithRetry`,
starting at index `i`.  On an ok response it returns the response; on a thrown
error or non-2xx status it rethrows if `i === attempts - 1` (for `i <
attempts` this is `i + 1 = attempts`) and otherwise sleeps
`delay * (i + 1)` and retries. -/
def fetchLoop {α : Type} (oracle : Nat → Attempt α) (delay attempts i : Nat) :
    RetryTrace α :=
  if _h : i < attempts then
    match oracle i with
    | .got r =>
      if r.ok then ⟨.ok (some r), 1, []⟩
      else if i + 1 = attempts then ⟨.error (httpError r), 1, []⟩
      else
        let t := fetchLoop oracle delay attempts (i + 1)
        ⟨t.result, t.requests + 1, delay * (i + 1) :: t.delays⟩
    | .thrown e =>
      if i + 1 = attempts then ⟨.error e, 1, []⟩
      else
        let t := fetchLoop oracle delay attempts (i + 1)
        ⟨t.result, t.requests + 1, delay * (i + 1) :: t.delays⟩
  else ⟨.ok none, 0, []⟩
termination_by attempts - i

/-- `fetchWithRetry(url, options, attempts)` with `CONFIG.retryDelay = delay`.
The URL and options are absorbed into the oracle. -/
def fetchWithRetry {α : Type} (oracle : Nat → Attempt α) (attempts delay : Nat) :
    RetryTrace α :=
  fetchLoop oracle delay attempts 0

/-! ### Lemmas about the retry loop -/

theorem fetchLoop_stop {α : Type} (oracle : Nat → Attempt α) (delay attempts i : Nat)
    (h : ¬ i < attempts) : fetchLoop oracle delay attempts i = ⟨.ok none, 0, []⟩ := by
  rw [fetchLoop]
  simp [h]

theorem fetchLoop_requests_le {α : Type} (oracle : Nat → Attempt α)
    (delay attempts : Nat) : ∀ i, (fetchLoop oracle delay attempts i).requests ≤ attempts - i := by
  have key : ∀ n i, attempts - i ≤ n →
      (fetchLoop oracle delay attempts i).requests ≤ attempts - i := by
    intro n
    induction n with
    | zero =>
      intro i hi
      have h : ¬ i < attempts := by omega
      rw [fetchLoop_stop oracle delay attempts i h]
      exact Nat.zero_le _
    | succ n ih =>
      intro i hi
      by_cases h : i < attempts
      · rw [fetchLoop]
        simp only [h, dif_pos]
        match oracle i with
        | .got r =>
          by_cases hok : r.ok
          · simp [hok]
            omega
          · by_cases hlast : i + 1 = attempts
            · simp [hok, hlast]
              omega
            · have := ih (i + 1) (by omega)
              simp only [hok, hlast, if_neg, if_false, Bool.false_eq_true]
              omega
        | .thrown e =>
          by_cases hlast : i + 1 = attempts
          · simp [hlast]
            omega
          · have := ih (i + 1) (by omega)
            simp only [hlast, if_neg, if_false]
            omega
      · rw [fetchLoop_stop oracle delay attempts i h]
        exact Nat.zero_le _
  exact fun i => key (attempts - i) i le_rfl

/-- If attempt `i` fails but it is not the last allowed attempt, the loop
retries: one more request, one sleep of `delay * (i + 1)`, same final result
as the loop from `i + 1`. -/
theorem fetchLoop_retry {α : Type} (oracle : Nat → Attempt α) (delay attempts i : Nat)
    (h : i < attempts) (hfail : (attemptFail (oracle i)).isSome)
    (hlast : i + 1 ≠ attempts) :
    fetchLoop oracle delay attempts i =
      ⟨(fetchLoop oracle delay attempts (i + 1)).result,
       (fetchLoop oracle delay attempts (i + 1)).requests + 1,
       delay * (i + 1) :: (fetchLoop oracle delay attempts (i + 1)).delays⟩ := by
  rw [fetchLoop]
  simp only [h, dif_pos]
  match ho : oracle i with
  | .got r =>
    have hok : ¬ (r.ok = true) := by
      intro hr
      rw [attemptFail.eq_def, ho] at hfail
      simp [hr] at hfail
    simp [hok, hlast]
  | .thrown e => simp [hlast]

/-- If attempt `i` fails and it is the last allowed attempt, the loop throws
that attempt's error. -/
theorem fetchLoop_throw {α : Type} (oracle : Nat → Attempt α) (delay attempts i : Nat)
    (h : i < attempts) (e : String) (hfail : attemptFail (oracle i) = some e)
    (hlast : i + 1 = attempts) :
    fetchLoop oracle delay attempts i = ⟨.error e, 1, []⟩ := by
  rw [fetchLoop]
  simp only [h, dif_pos]
  match ho : oracle i with
  | .got r =>
    have hok : ¬ (r.ok = true) := by
      intro hr
      rw [attemptFail.eq_def, ho] at hfail
      simp [hr] at hfail
    rw [attemptFail.eq_def, ho] at hfail
    simp only [hok, if_neg, if_false, Bool.false_eq_true]
    simp only [hok, if_false] at hfail
    simp only [hlast, if_pos, if_true]
    cases hfail
    rfl
  | .thrown e' =>
    rw [attemptFail.eq_def, ho] at hfail
    cases hfail
    simp [hlast]

/-- If attempt `i` returns an ok response `r`, the loop returns `r` at once. -/
theorem fetchLoop_ok {α : Type} (oracle : Nat → Attempt α) (delay attempts i : Nat)
    (h : i < attempts) (r : Response α) (ho : oracle i = .got r) (hok : r.ok = true) :
    fetchLoop oracle delay attempts i = ⟨.ok (some r), 1, []⟩ := by
  rw [fetchLoop]
  simp [h, ho, hok]

/-- The loop never hands a non-2xx response back to its caller: a returned
response always has `ok = true`. -/
theorem fetchLoop_ok_response {α : Type} (oracle : Nat → Attempt α) (delay attempts : Nat) :
    ∀ i (r : Response α), (fetchLoop oracle delay attempts i).result = Except.ok (some r) →
      r.ok = true := by
  have key : ∀ n i, attempts - i ≤ n → ∀ r : Response α,
      (fetchLoop oracle delay attempts i).result = Except.ok (some r) → r.ok = true := by
    intro n
    induction n with
    | zero =>
      intro i hi r hr
      rw [fetchLoop_stop oracle delay attempts i (by omega)] at hr
      cases hr
    | succ n ih =>
      intro i hi r hr
      by_cases h : i < attempts
      · rw [fetchLoop] at hr
        simp only [h, dif_pos] at hr
        match ho : oracle i with
        | .got r' =>
          rw [ho] at hr
          by_cases hok : r'.ok
          · simp only [hok, if_pos, if_true] at hr
            simp only [Except.ok.injEq, Option.some.injEq] at hr
            rw [← hr]
            exact hok
          · by_cases hlast : i + 1 = attempts
            · simp only [hok, hlast, if_neg, if_false, if_pos, if_true,
                Bool.false_eq_true] at hr
              cases hr
            · simp only [hok, hlast, if_neg, if_false, Bool.false_eq_true] at hr
              exact ih (i + 1) (by omega) r hr
        | .thrown e =>
          rw [ho] at hr
          by_cases hlast : i + 1 = attempts
          · simp only [hlast, if_pos, if_true] at hr
            cases hr
          · simp only [hlast, if_neg, if_false] at hr
            exact ih (i + 1) (by omega) r hr
      · rw [fetchLoop_stop oracle delay attempts i h] at hr
        cases hr
  exact fun i r hr => key (attempts - i) i le_rfl r hr

/-- When the loop body runs at least once, the loop never returns `undefined`:
the result is an ok response or a propagated error. -/
theorem fetchLoop_ne_none {α : Type} (oracle : Nat → Attempt α) (delay attempts : Nat) :
    ∀ i, i < attempts → (fetchLoop oracle delay attempts i).result ≠ Except.ok none := by
  have key : ∀ n i, attempts - i ≤ n → i < attempts →
      (fetchLoop oracle delay attempts i).result ≠ Except.ok none := by
    intro n
    induction n with
    | zero =>
      intro i hi h
      omega
    | succ n ih =>
      intro i hi h
      rw [fetchLoop]
      simp only [h, dif_pos]
      match ho : oracle i with
      | .got r =>
        by_cases hok : r.ok
        · simp [hok]
        · by_cases hlast : i + 1 = attempts
          · simp [hok, hlast]
          · simp only [hok, hlast, if_neg, if_false, Bool.false_eq_true]
            exact ih (i + 1) (by omega) (by omega)
      | .thrown e =>
        by_cases hlast : i + 1 = attempts
        · simp [hlast]
        · simp only [hlast, if_neg, if_false]
          exact ih (i + 1) (by omega) (by omega)
  exact fun i h => key (attempts - i) i le_rfl h

/-- Failing the first attempts up to `k` and receiving an ok response at
attempt `k` yields that response, `k + 1` requests in total, and one linear
back-off sleep per failed attempt. -/
theorem fetchLoop_success {α : Type} (oracle : Nat → Attempt α) (delay attempts k : Nat)
    (hk : k < attempts) (r : Response α) (ho : oracle k = .got r) (hok : r.ok = true)
    (hfail : ∀ j, j < k → (attemptFail (oracle j)).isSome) :
    ∀ i, i ≤ k → fetchLoop oracle delay attempts i =
      ⟨Except.ok (some r), k - i + 1, (List.range' (i + 1) (k - i)).map (fun j => delay * j)⟩ := by
  have key : ∀ n i, i ≤ k → k - i = n → fetchLoop oracle delay attempts i =
      ⟨Except.ok (some r), k - i + 1,
       (List.range' (i + 1) (k - i)).map (fun j => delay * j)⟩ := by
    intro n
    induction n with
    | zero =>
      intro i hik hn
      have hi : i = k := by omega
      subst hi
      rw [fetchLoop_ok oracle delay attempts i (by omega) r ho hok, hn]
      simp
    | succ n ih =>
      intro i hik hn
      have hik' : i < k := by omega
      have hl : i + 1 ≠ attempts := by omega
      rw [fetchLoop_retry oracle delay attempts i (by omega) (hfail i hik') hl]
      rw [ih (i + 1) (by omega) (by omega)]
      have h1 : k - i = (k - (i + 1)) + 1 := by omega
      rw [h1, List.range'_succ, List.map_cons]
  exact fun i h => key (k - i) i h rfl

/-- Failing every allowed attempt throws the last attempt's error after
exactly `attempts - i` requests. -/
theorem fetchLoop_allfail {α : Type} (oracle : Nat → Attempt α) (delay attempts : Nat)
    (hfail : ∀ j, j < attempts → (attemptFail (oracle j)).isSome)
    (e : String) (hlast : attemptFail (oracle (attempts - 1)) = some e) :
    ∀ i, i < attempts → (fetchLoop oracle delay attempts i).result = Except.error e ∧
      (fetchLoop oracle delay attempts i).requests = attempts - i := by
  have key : ∀ n i, attempts - i ≤ n → i < attempts →
      (fetchLoop oracle delay attempts i).result = Except.error e ∧
      (fetchLoop oracle delay attempts i).requests = attempts - i := by
    intro n
    induction n with
    | zero =>
      intro i hi h
      omega
    | succ n ih =>
      intro i hi h
      by_cases hl : i + 1 = attempts
      · have hieq : i = attempts - 1 := by omega
        rw [fetchLoop_throw oracle delay attempts i h e (hieq ▸ hlast) hl]
        constructor
        · rfl
        · show 1 = attempts - i
          omega
      · rw [fetchLoop_retry oracle delay attempts i h (hfail i h) hl]
        obtain ⟨h1, h2⟩ := ih (i + 1) (by omega) (by omega)
        refine ⟨h1, ?_⟩
        show (fetchLoop oracle delay attempts (i + 1)).requests + 1 = attempts - i
        omega
  exact fun i h => key (attempts - i) i le_rfl h

/-! ## Filesystem model

Local paths are lists of segments (so `path.join(dir, name)` is `dir ++ [name]`
and distinct names give distinct paths).  A filesystem maps a path to the
content of the file stored there, if any.  `fs.existsSync(p) && statSync(p).size
> 0` (lines 132-134) becomes `existsNonzero`. -/

abbrev FilePath' := List String

abbrev Fs := FilePath' → Option String

/-- `fs.writeFileSync` / a completed streamed download: overwrite `p` with `c`. -/
def fsUpdate (fs : Fs) (p : FilePath') (c : String) : Fs :=
  fun q => if q = p then some c else fs q

theorem fsUpdate_apply (fs : Fs) (p : FilePath') (c : String) (q : FilePath') :
    fsUpdate fs p c q = if q = p then some c else fs q := rfl

/-- The skip test of `downloadFile` (lines 132-137): the file exists and has
non-zero size. -/
def existsNonzero (fs : Fs) (p : FilePath') : Bool :=
  match fs p with
  | some c => decide (0 < c.length)
  | none => false

/-! ## Bounded download pool (`downloadPdfs`, lines 249-295)

One file descriptor of the manifest: `{ path: remote, name: local }` as built
at lines 219-224 / 230.  The download oracle `dl` gives, per remote path, the
outcome of `fetchWithRetry` + `pipeline` for that file: the streamed content,
or the propagated error message. -/

structure FileDesc where
  rpath : String
  name : String
deriving Repr, DecidableEq

/-- Per-file outcome recorded in `results` (lines 262, 271). -/
inductive DlStatus where
  | downloaded
  | skipped
  | failed
deriving Repr, DecidableEq

structure FileResult where
  file : FileDesc
  status : DlStatus
  err : Option String
deriving Repr, DecidableEq

/-- What an in-flight `processNext` task will do, decided by the synchronous
head of `downloadFile` at the moment the task starts: `skip` when the local
file already exists non-empty, `fetch` otherwise. -/
inductive TaskKind where
  | skip
  | fetch
deriving Repr, DecidableEq

structure TaskState where
  file : FileDesc
  kind : TaskKind
deriving Repr, DecidableEq

/-- Pool configuration: the target directory (`localDir`, line 210) and
`CONFIG.concurrency` (5 in the source). -/
structure PoolCfg where
  localDir : FilePath'
  concurrency : Nat

/-- `path.join(localDir, fileName)` (line 258). -/
def localPath (cfg : PoolCfg) (name : String) : FilePath' :=
  cfg.localDir ++ [name]

/-- State of one `downloadPdfs` pool run: the work `queue` (line 250), the
`inProgress` set (line 251), the three counters (lines 244-246), the `results`
array (line 247), the names for which a network fetch was issued, and the
local filesystem. -/
structure PoolState where
  queue : List FileDesc
  inflight : List TaskState
  downloaded : Nat
  skipped : Nat
  failed : Nat
  results : List FileResult
  fetches : List String
  fs : Fs

def initState (manifest : List FileDesc) (fs0 : Fs) : PoolState :=
  { queue := manifest, inflight := [], downloaded := 0, skipped := 0, failed := 0,
    results := [], fetches := [], fs := fs0 }

/-- Starting a task: the skip test of `downloadFile` runs against the current
filesystem (it precedes the first `await`). -/
def mkTask (cfg : PoolCfg) (fs : Fs) (f : FileDesc) : TaskState :=
  { file := f, kind := if existsNonzero fs (localPath cfg f.name) then .skip else .fetch }

/-- One `start` step: `queue.shift()` (line 256) plus the synchronous prefix of
`downloadFile`; a fetch-kind task issues its network request here. -/
def startTask (cfg : PoolCfg) (s : PoolState) (f : FileDesc) (q : List FileDesc) :
    PoolState :=
  let t := mkTask cfg s.fs f
  { s with queue := q,
           inflight := s.inflight ++ [t],
           fetches := if t.kind = .fetch then s.fetches ++ [f.name] else s.fetches }

/-- Resolving an in-flight task: the tail of `downloadFile` plus the
bookkeeping of `processNext` (lines 260-272).  A skip task counts as skipped;
a fetch task either streams its content to disk and counts as downloaded, or
counts as failed with the error message — other tasks and the queue are
untouched. -/
def completeTask (cfg : PoolCfg) (dl : String → Except String String)
    (s : PoolState) (t : TaskState) : PoolState :=
  match t.kind with
  | .skip =>
      { s with skipped := s.skipped + 1,
               results := s.results ++ [⟨t.file, .skipped, none⟩] }
  | .fetch =>
    match dl t.file.rpath with
    | .ok c =>
        { s with downloaded := s.downloaded + 1,
                 fs := fsUpdate s.fs (localPath cfg t.file.name) c,
                 results := s.results ++ [⟨t.file, .downloaded, none⟩] }
    | .error e =>
        { s with failed := s.failed + 1,
                 results := s.results ++ [⟨t.file, .failed, some e⟩] }

/-- Small-step semantics of the pool loop (lines 281-291): start a task while a
slot is free and the queue is non-empty; any in-flight task may complete
(completion order is whatever `Promise.race` resolves). -/
inductive PoolStep (cfg : PoolCfg) (dl : String → Except String String) :
    PoolState → PoolState → Prop where
  | start : (s : PoolState) → (f : FileDesc) → (q : List FileDesc) →
      s.queue = f :: q → s.inflight.length < cfg.concurrency →
      PoolStep cfg dl s (startTask cfg s f q)
  | complete : (s : PoolState) → (t : TaskState) → (l r : List TaskState) →
      s.inflight = l ++ t :: r →
      PoolStep cfg dl s (completeTask cfg dl { s with inflight := l ++ r } t)

/-- Reachability of pool states from a given initial state. -/
inductive PoolReach (cfg : PoolCfg) (dl : String → Except String String)
    (s0 : PoolState) : PoolState → Prop where
  | refl : PoolReach cfg dl s0 s0
  | tail : {s s' : PoolState} → PoolReach cfg dl s0 s → PoolStep cfg dl s s' →
      PoolReach cfg dl s0 s'

/-- The loop at line 281 exits: no queued work and nothing in flight. -/
def PoolDone (s : PoolState) : Prop := s.queue = [] ∧ s.inflight = []

/-! ### Structural lemmas about completing a task -/

theorem completeTask_queue (cfg : PoolCfg) (dl : String → Except String String)
    (s : PoolState) (t : TaskState) : (completeTask cfg dl s t).queue = s.queue := by
  cases ht : t.kind with
  | skip => simp [completeTask, ht]
  | fetch =>
    cases hdl : dl t.file.rpath with
    | ok c => simp [completeTask, ht, hdl]
    | error e => simp [completeTask, ht, hdl]

theorem completeTask_inflight (cfg : PoolCfg) (dl : String → Except String String)
    (s : PoolState) (t : TaskState) : (completeTask cfg dl s t).inflight = s.inflight := by
  cases ht : t.kind with
  | skip => simp [completeTask, ht]
  | fetch =>
    cases hdl : dl t.file.rpath with
    | ok c => simp [completeTask, ht, hdl]
    | error e => simp [completeTask, ht, hdl]

theorem completeTask_fetches (cfg : PoolCfg) (dl : String → Except String String)
    (s : PoolState) (t : TaskState) : (completeTask cfg dl s t).fetches = s.fetches := by
  cases ht : t.kind with
  | skip => simp [completeTask, ht]
  | fetch =>
    cases hdl : dl t.file.rpath with
    | ok c => simp [completeTask, ht, hdl]
    | error e => simp [completeTask, ht, hdl]

/-- Exhaustive description of `completeTask`: a skip task counts as skipped, a
fetch task counts as downloaded (writing the file) or failed according to the
download oracle. -/
theorem completeTask_cases (cfg : PoolCfg) (dl : String → Except String String)
    (s : PoolState) (t : TaskState) :
    (t.kind = .skip ∧ completeTask cfg dl s t =
      { s with skipped := s.skipped + 1,
               results := s.results ++ [⟨t.file, .skipped, none⟩] }) ∨
    (∃ c, t.kind = .fetch ∧ dl t.file.rpath = .ok c ∧ completeTask cfg dl s t =
      { s with downloaded := s.downloaded + 1,
               fs := fsUpdate s.fs (localPath cfg t.file.name) c,
               results := s.results ++ [⟨t.file, .downloaded, none⟩] }) ∨
    (∃ e, t.kind = .fetch ∧ dl t.file.rpath = .error e ∧ completeTask cfg dl s t =
      { s with failed := s.failed + 1,
               results := s.results ++ [⟨t.file, .failed, some e⟩] }) := by
  cases ht : t.kind with
  | skip => exact Or.inl ⟨rfl, by simp [completeTask, ht]⟩
  | fetch =>
    cases hdl : dl t.file.rpath with
    | ok c => exact Or.inr (Or.inl ⟨c, rfl, rfl, by simp [completeTask, ht, hdl]⟩)
    | error e => exact Or.inr (Or.inr ⟨e, rfl, rfl, by simp [completeTask, ht, hdl]⟩)

/-! ### Invariants holding for every manifest (no distinctness assumption) -/

theorem step_inflight_le {cfg : PoolCfg} {dl : String → Except String String}
    {s s' : PoolState} (h : PoolStep cfg dl s s')
    (ih : s.inflight.length ≤ cfg.concurrency) :
    s'.inflight.length ≤ cfg.concurrency := by
  cases h with
  | start f q hq hc =>
    simp only [startTask, List.length_append, List.length_cons, List.length_nil]
    omega
  | complete t l r hin =>
    rw [completeTask_inflight]
    rw [hin] at ih
    simp only [List.length_append, List.length_cons] at ih ⊢
    omega

/-- Concurrency cap: at no reachable state are more than `cfg.concurrency`
tasks in flight. -/
theorem reach_inflight_le {cfg : PoolCfg} {dl : String → Except String String}
    {manifest : List FileDesc} {fs0 : Fs} {s : PoolState}
    (h : PoolReach cfg dl (initState manifest fs0) s) :
    s.inflight.length ≤ cfg.concurrency := by
  induction h with
  | refl => simp [initState]
  | tail hr hs ih => exact step_inflight_le hs ih

theorem step_conservation {cfg : PoolCfg} {dl : String → Except String String}
    {s s' : PoolState} {n : Nat} (h : PoolStep cfg dl s s')
    (ih : s.queue.length + s.inflight.length + s.results.length = n) :
    s'.queue.length + s'.inflight.length + s'.results.length = n := by
  cases h with
  | start f q hq hc =>
    rw [hq] at ih
    simp only [startTask, List.length_append, List.length_cons, List.length_nil] at ih ⊢
    omega
  | complete t l r hin =>
    rcases completeTask_cases cfg dl { s with inflight := l ++ r } t with
      ⟨_, heq⟩ | ⟨c, _, _, heq⟩ | ⟨e, _, _, heq⟩ <;>
    · rw [heq]
      rw [hin] at ih
      simp only [List.length_append, List.length_cons, List.length_nil] at ih ⊢
      omega

/-- Conservation: queued + in-flight + recorded results always add up to the
manifest length. -/
theorem reach_conservation {cfg : PoolCfg} {dl : String → Except String String}
    {manifest : List FileDesc} {fs0 : Fs} {s : PoolState}
    (h : PoolReach cfg dl (initState manifest fs0) s) :
    s.queue.length + s.inflight.length + s.results.length = manifest.length := by
  induction h with
  | refl => simp [initState]
  | tail hr hs ih => exact step_conservation hs ih

def CountsOk (s : PoolState) : Prop :=
  s.downloaded = s.results.countP (fun x => x.status = DlStatus.downloaded) ∧
  s.skipped = s.results.countP (fun x => x.status = DlStatus.skipped) ∧
  s.failed = s.results.countP (fun x => x.status = DlStatus.failed)

theorem step_counts {cfg : PoolCfg} {dl : String → Except String String}
    {s s' : PoolState} (h : PoolStep cfg dl s s') (ih : CountsOk s) : CountsOk s' := by
  obtain ⟨ihd, ihs, ihf⟩ := ih
  cases h with
  | start f q hq hc =>
    exact ⟨ihd, ihs, ihf⟩
  | complete t l r hin =>
    rcases completeTask_cases cfg dl { s with inflight := l ++ r } t with
      ⟨_, heq⟩ | ⟨c, _, _, heq⟩ | ⟨e, _, _, heq⟩ <;>
    · rw [CountsOk, heq]
      simp only [List.countP_append, List.countP_cons, List.countP_nil]
      simp only [decide_eq_true_eq]
      refine ⟨?_, ?_, ?_⟩ <;> simp <;> omega

/-- The three counters always agree with the recorded results. -/
theorem reach_counts {cfg : PoolCfg} {dl : String → Except String String}
    {manifest : List FileDesc} {fs0 : Fs} {s : PoolState}
    (h : PoolReach cfg dl (initState manifest fs0) s) : CountsOk s := by
  induction h with
  | refl => refine ⟨?_, ?_, ?_⟩ <;> simp [initState]
  | tail hr hs ih => exact step_counts hs ih

def PoolFiles (s : PoolState) : List FileDesc :=
  s.queue ++ s.inflight.map TaskState.file ++ s.results.map FileResult.file

theorem step_perm {cfg : PoolCfg} {dl : String → Except String String}
    {s s' : PoolState} {manifest : List FileDesc} (h : PoolStep cfg dl s s')
    (ih : (PoolFiles s).Perm manifest) : (PoolFiles s').Perm manifest := by
  cases h with
  | start f q hq hc =>
    rw [PoolFiles, hq] at ih
    have hfile : (mkTask cfg s.fs f).file = f := rfl
    rw [PoolFiles]
    simp only [startTask, List.map_append, List.map_cons, List.map_nil, hfile]
    refine List.Perm.trans ?_ ih
    rw [← Multiset.coe_eq_coe]
    simp only [← Multiset.coe_add, List.append_assoc, List.singleton_append,
      List.cons_append]
    simp only [← Multiset.cons_coe, ← Multiset.singleton_add, Multiset.coe_singleton]
    simp only [← Multiset.coe_add, List.nil_append, Multiset.coe_nil]
    abel
  | complete t l r hin =>
    rw [PoolFiles, hin] at ih
    rcases completeTask_cases cfg dl { s with inflight := l ++ r } t with
      ⟨_, heq⟩ | ⟨c, _, _, heq⟩ | ⟨e, _, _, heq⟩ <;>
    · rw [PoolFiles, heq]
      simp only [List.map_append, List.map_cons, List.map_nil] at ih ⊢
      refine List.Perm.trans ?_ ih
      rw [← Multiset.coe_eq_coe]
      simp only [← Multiset.coe_add, List.append_assoc, List.singleton_append,
        List.cons_append]
      simp only [← Multiset.cons_coe, ← Multiset.singleton_add, Multiset.coe_singleton]
      simp only [← Multiset.coe_add, List.nil_append, Multiset.coe_nil]
      abel

/-- The queue, in-flight files and result files are always a permutation of
the manifest: no file is dropped or duplicated by the pool loop. -/
theorem reach_perm {cfg : PoolCfg} {dl : String → Except String String}
    {manifest : List FileDesc} {fs0 : Fs} {s : PoolState}
    (h : PoolReach cfg dl (initState manifest fs0) s) :
    (PoolFiles s).Perm manifest := by
  induction h with
  | refl => simp [initState, PoolFiles]
  | tail hr hs ih => exact step_perm hs ih

/-! ### Invariants for manifests with pairwise-distinct local names -/

theorem localPath_inj {cfg : PoolCfg} {a b : String}
    (h : localPath cfg a = localPath cfg b) : a = b := by
  unfold localPath at h
  have := List.append_cancel_left h
  simpa using this

theorem nodup_three {α : Type} {A B C : List α} (h : (A ++ B ++ C).Nodup) :
    (∀ a ∈ A, ∀ b ∈ B, a ≠ b) ∧ (∀ a ∈ A, ∀ c ∈ C, a ≠ c) ∧ (∀ b ∈ B, ∀ c ∈ C, b ≠ c) ∧
    A.Nodup ∧ B.Nodup ∧ C.Nodup := by
  rw [List.nodup_append, List.nodup_append] at h
  obtain ⟨⟨hA, hB, hAB⟩, hC, hABC⟩ := h
  refine ⟨?_, ?_, ?_, hA, hB, hC⟩
  · intro a ha b hb hab
    exact hAB ha (hab ▸ hb)
  · intro a ha c hc hac
    exact hABC (List.mem_append.mpr (Or.inl ha)) (hac ▸ hc)
  · intro b hb c hc hbc
    exact hABC (List.mem_append.mpr (Or.inr hb)) (hbc ▸ hc)

/-- Local names across queue, in-flight tasks and results stay pairwise
distinct when the manifest's names are. -/
theorem reach_names {cfg : PoolCfg} {dl : String → Except String String}
    {manifest : List FileDesc} {fs0 : Fs} {s : PoolState}
    (hnd : (manifest.map FileDesc.name).Nodup)
    (h : PoolReach cfg dl (initState manifest fs0) s) :
    (s.queue.map FileDesc.name ++ s.inflight.map (fun t => t.file.name) ++
      s.results.map (fun x => x.file.name)).Nodup := by
  have hp := (reach_perm h).map FileDesc.name
  have hn := (hp.nodup_iff).mpr hnd
  simpa [PoolFiles, List.map_append, List.map_map, Function.comp] using hn

/-- The task kind a file gets when its skip test runs against the *initial*
filesystem. -/
def initKind (cfg : PoolCfg) (fs0 : Fs) (f : FileDesc) : TaskKind :=
  if existsNonzero fs0 (localPath cfg f.name) then .skip else .fetch

/-- The pool invariant for manifests with pairwise-distinct local names:
the filesystem differs from the initial one only at paths of downloaded
results, each in-flight task's skip decision agrees with the initial
filesystem, each result's status is skipped exactly for pre-existing files
and records the download oracle's verdict otherwise, and a network fetch was
issued only for files that did not pre-exist. -/
structure PoolInv (cfg : PoolCfg) (dl : String → Except String String)
    (fs0 : Fs) (s : PoolState) : Prop where
  fs_pres : ∀ p, (∀ x ∈ s.results, x.status = DlStatus.downloaded →
      p ≠ localPath cfg x.file.name) → s.fs p = fs0 p
  kinds : ∀ t ∈ s.inflight, t.kind = initKind cfg fs0 t.file
  res_skip : ∀ x ∈ s.results,
      (x.status = DlStatus.skipped ↔ existsNonzero fs0 (localPath cfg x.file.name) = true)
  res_dl : ∀ x ∈ s.results, x.status = DlStatus.downloaded →
      ∃ c, dl x.file.rpath = Except.ok c ∧ s.fs (localPath cfg x.file.name) = some c
  res_fail : ∀ x ∈ s.results, x.status = DlStatus.failed →
      ∃ e, dl x.file.rpath = Except.error e
  fet : ∀ n ∈ s.fetches, existsNonzero fs0 (localPath cfg n) = false

theorem poolInv_step {cfg : PoolCfg} {dl : String → Except String String}
    {manifest : List FileDesc} {fs0 : Fs} {s s' : PoolState}
    (hnd : (manifest.map FileDesc.name).Nodup)
    (hreach : PoolReach cfg dl (initState manifest fs0) s)
    (hstep : PoolStep cfg dl s s')
    (inv : PoolInv cfg dl fs0 s) : PoolInv cfg dl fs0 s' := by
  obtain ⟨hQI, hQR, hIR, hQ, hI, hR⟩ := nodup_three (reach_names hnd hreach)
  cases hstep with
  | start f q hq hc =>
    have hfQ : f.name ∈ s.queue.map FileDesc.name := by
      rw [hq]
      exact List.mem_map_of_mem _ (List.mem_cons_self f q)
    have key : s.fs (localPath cfg f.name) = fs0 (localPath cfg f.name) := by
      apply inv.fs_pres
      intro x hx hxdl heqp
      exact hQR _ hfQ _ (List.mem_map_of_mem _ hx) (localPath_inj heqp)
    have hEN : existsNonzero s.fs (localPath cfg f.name) =
        existsNonzero fs0 (localPath cfg f.name) := by
      unfold existsNonzero
      rw [key]
    have hkind : (mkTask cfg s.fs f).kind = initKind cfg fs0 f := by
      simp only [mkTask, initKind]
      rw [hEN]
    constructor
    · intro p hp
      exact inv.fs_pres p hp
    · intro t ht
      simp only [startTask, List.mem_append, List.mem_singleton] at ht
      rcases ht with ht | ht
      · exact inv.kinds t ht
      · rw [ht]
        exact hkind
    · exact inv.res_skip
    · exact inv.res_dl
    · exact inv.res_fail
    · intro n hn
      simp only [startTask] at hn
      by_cases hf : (mkTask cfg s.fs f).kind = TaskKind.fetch
      · rw [if_pos hf] at hn
        rcases List.mem_append.mp hn with hn | hn
        · exact inv.fet n hn
        · have hn' : n = f.name := List.mem_singleton.mp hn
          rw [hkind, initKind] at hf
          by_cases hpre : existsNonzero fs0 (localPath cfg f.name) = true
          · rw [if_pos hpre] at hf
            cases hf
          · rw [hn']
            simpa using hpre
      · rw [if_neg hf] at hn
        exact inv.fet n hn
  | complete t l r hin =>
    have htI : t.file.name ∈ s.inflight.map (fun u => u.file.name) := by
      rw [hin]
      refine List.mem_map_of_mem _ ?_
      exact List.mem_append.mpr (Or.inr (List.mem_cons_self t r))
    have htkind := inv.kinds t (by
      rw [hin]
      exact List.mem_append.mpr (Or.inr (List.mem_cons_self t r)))
    have hsub : ∀ u ∈ l ++ r, u ∈ s.inflight := by
      intro u hu
      rw [hin]
      rcases List.mem_append.mp hu with hu | hu
      · exact List.mem_append.mpr (Or.inl hu)
      · exact List.mem_append.mpr (Or.inr (List.mem_cons_of_mem _ hu))
    rcases completeTask_cases cfg dl { s with inflight := l ++ r } t with
      ⟨hk, heq⟩ | ⟨c, hk, hdl, heq⟩ | ⟨e, hk, hdl, heq⟩
    · -- skip task completes
      have hpre : existsNonzero fs0 (localPath cfg t.file.name) = true := by
        rw [hk, initKind] at htkind
        by_cases hp : existsNonzero fs0 (localPath cfg t.file.name) = true
        · exact hp
        · rw [if_neg hp] at htkind
          cases htkind
      rw [heq]
      constructor
      · intro p hp
        apply inv.fs_pres
        intro x hx hxdl
        exact hp x (List.mem_append.mpr (Or.inl hx)) hxdl
      · intro u hu
        exact inv.kinds u (hsub u hu)
      · intro x hx
        rcases List.mem_append.mp hx with hx | hx
        · exact inv.res_skip x hx
        · have hx' : x = ⟨t.file, .skipped, none⟩ := List.mem_singleton.mp hx
          rw [hx']
          simpa using hpre
      · intro x hx hxdl
        rcases List.mem_append.mp hx with hx | hx
        · exact inv.res_dl x hx hxdl
        · have hx' : x = ⟨t.file, .skipped, none⟩ := List.mem_singleton.mp hx
          rw [hx'] at hxdl
          cases hxdl
      · intro x hx hxf
        rcases List.mem_append.mp hx with hx | hx
        · exact inv.res_fail x hx hxf
        · have hx' : x = ⟨t.file, .skipped, none⟩ := List.mem_singleton.mp hx
          rw [hx'] at hxf
          cases hxf
      · exact inv.fet
    · -- fetch task completes with a successful download
      have hpre : existsNonzero fs0 (localPath cfg t.file.name) = false := by
        rw [hk, initKind] at htkind
        by_cases hp : existsNonzero fs0 (localPath cfg t.file.name) = true
        · rw [if_pos hp] at htkind
          cases htkind
        · simpa using hp
      rw [heq]
      constructor
      · intro p hp
        have hpt : p ≠ localPath cfg t.file.name := by
          refine hp ⟨t.file, .downloaded, none⟩ ?_ rfl
          exact List.mem_append.mpr (Or.inr (List.mem_singleton_self _))
        show fsUpdate s.fs (localPath cfg t.file.name) c p = fs0 p
        rw [fsUpdate_apply, if_neg hpt]
        apply inv.fs_pres
        intro x hx hxdl
        exact hp x (List.mem_append.mpr (Or.inl hx)) hxdl
      · intro u hu
        exact inv.kinds u (hsub u hu)
      · intro x hx
        rcases List.mem_append.mp hx with hx | hx
        · exact inv.res_skip x hx
        · have hx' : x = ⟨t.file, .downloaded, none⟩ := List.mem_singleton.mp hx
          rw [hx']
          simp [hpre]
      · intro x hx hxdl
        rcases List.mem_append.mp hx with hx | hx
        · obtain ⟨cx, hcx, hfsx⟩ := inv.res_dl x hx hxdl
          refine ⟨cx, hcx, ?_⟩
          have hne : localPath cfg x.file.name ≠ localPath cfg t.file.name := by
            intro hpp
            exact hIR _ htI _ (List.mem_map_of_mem _ hx) (localPath_inj hpp).symm
          show fsUpdate s.fs (localPath cfg t.file.name) c (localPath cfg x.file.name) = some cx
          rw [fsUpdate_apply, if_neg hne]
          exact hfsx
        · have hx' : x = ⟨t.file, .downloaded, none⟩ := List.mem_singleton.mp hx
          rw [hx']
          refine ⟨c, hdl, ?_⟩
          show fsUpdate s.fs (localPath cfg t.file.name) c (localPath cfg t.file.name) = some c
          rw [fsUpdate_apply, if_pos rfl]
      · intro x hx hxf
        rcases List.mem_append.mp hx with hx | hx
        · exact inv.res_fail x hx hxf
        · have hx' : x = ⟨t.file, .downloaded, none⟩ := List.mem_singleton.mp hx
          rw [hx'] at hxf
          cases hxf
      · exact inv.fet
    · -- fetch task completes with a failed download
      have hpre : existsNonzero fs0 (localPath cfg t.file.name) = false := by
        rw [hk, initKind] at htkind
        by_cases hp : existsNonzero fs0 (localPath cfg t.file.name) = true
        · rw [if_pos hp] at htkind
          cases htkind
        · simpa using hp
      rw [heq]
      constructor
      · intro p hp
        apply inv.fs_pres
        intro x hx hxdl
        exact hp x (List.mem_append.mpr (Or.inl hx)) hxdl
      · intro u hu
        exact inv.kinds u (hsub u hu)
      · intro x hx
        rcases List.mem_append.mp hx with hx | hx
        · exact inv.res_skip x hx
        · have hx' : x = ⟨t.file, .failed, some e⟩ := List.mem_singleton.mp hx
          rw [hx']
          simp [hpre]
      · intro x hx hxdl
        rcases List.mem_append.mp hx with hx | hx
        · exact inv.res_dl x hx hxdl
        · have hx' : x = ⟨t.file, .failed, some e⟩ := List.mem_singleton.mp hx
          rw [hx'] at hxdl
          cases hxdl
      · intro x hx hxf
        rcases List.mem_append.mp hx with hx | hx
        · exact inv.res_fail x hx hxf
        · have hx' : x = ⟨t.file, .failed, some e⟩ := List.mem_singleton.mp hx
          rw [hx']
          exact ⟨e, hdl⟩
      · exact inv.fet

theorem reach_poolInv {cfg : PoolCfg} {dl : String → Except String String}
    {manifest : List FileDesc} {fs0 : Fs} {s : PoolState}
    (hnd : (manifest.map FileDesc.name).Nodup)
    (h : PoolReach cfg dl (initState manifest fs0) s) :
    PoolInv cfg dl fs0 s := by
  induction h with
  | refl =>
    constructor
    · intro p hp
      rfl
    · intro t ht
      cases ht
    · intro x hx
      cases hx
    · intro x hx
      cases hx
    · intro x hx
      cases hx
    · intro n hn
      cases hn
  | tail hr hs ih => exact poolInv_step hnd hr hs ih

/-! ### Facts about finished pool runs -/

theorem results_counts_total (L : List FileResult) :
    L.countP (fun x => x.status = DlStatus.downloaded) +
    L.countP (fun x => x.status = DlStatus.skipped) +
    L.countP (fun x => x.status = DlStatus.failed) = L.length := by
  induction L with
  | nil => simp
  | cons a L ih =>
    simp only [List.countP_cons, List.length_cons]
    cases ha : a.status <;> simp [ha] <;> omega

/-- At the end of a run the recorded results are exactly the manifest, up to
order. -/
theorem done_results_perm {cfg : PoolCfg} {dl : String → Except String String}
    {manifest : List FileDesc} {fs0 : Fs} {s : PoolState}
    (h : PoolReach cfg dl (initState manifest fs0) s) (hd : PoolDone s) :
    (s.results.map FileResult.file).Perm manifest := by
  have hp := reach_perm h
  rw [PoolFiles, hd.1, hd.2] at hp
  simpa using hp

theorem done_counts_sum {cfg : PoolCfg} {dl : String → Except String String}
    {manifest : List FileDesc} {fs0 : Fs} {s : PoolState}
    (h : PoolReach cfg dl (initState manifest fs0) s) (hd : PoolDone s) :
    s.downloaded + s.skipped + s.failed = manifest.length := by
  obtain ⟨hc1, hc2, hc3⟩ := reach_counts h
  have hl := reach_conservation h
  rw [hd.1, hd.2] at hl
  simp only [List.length_nil] at hl
  rw [hc1, hc2, hc3, results_counts_total]
  omega

/-- In a finished run over a manifest with distinct local names, two results
with the same local name are the same result. -/
theorem done_results_inj {cfg : PoolCfg} {dl : String → Except String String}
    {manifest : List FileDesc} {fs0 : Fs} {s : PoolState}
    (hnd : (manifest.map FileDesc.name).Nodup)
    (h : PoolReach cfg dl (initState manifest fs0) s) (hd : PoolDone s) :
    ∀ x ∈ s.results, ∀ y ∈ s.results, x.file.name = y.file.name → x = y := by
  have hnames := reach_names hnd h
  rw [hd.1, hd.2] at hnames
  simp only [List.map_nil, List.nil_append] at hnames
  intro x hx y hy hxy
  exact List.inj_on_of_nodup_map hnames hx hy hxy

/-- The skipped counter of a finished run equals the number of manifest files
that pre-existed non-empty. -/
theorem done_skipped_eq {cfg : PoolCfg} {dl : String → Except String String}
    {manifest : List FileDesc} {fs0 : Fs} {s : PoolState}
    (hnd : (manifest.map FileDesc.name).Nodup)
    (h : PoolReach cfg dl (initState manifest fs0) s) (hd : PoolDone s) :
    s.skipped = manifest.countP (fun f => existsNonzero fs0 (localPath cfg f.name)) := by
  have hc := (reach_counts h).2.1
  have hinv := reach_poolInv hnd h
  have hcong : s.results.countP (fun x => x.status = DlStatus.skipped) =
      s.results.countP (fun x => existsNonzero fs0 (localPath cfg x.file.name)) := by
    apply List.countP_congr
    intro x hx
    have hiff := hinv.res_skip x hx
    by_cases hs : x.status = DlStatus.skipped
    · simp [hs, hiff.mp hs]
    · have hb : existsNonzero fs0 (localPath cfg x.file.name) = false := by
        by_cases hb' : existsNonzero fs0 (localPath cfg x.file.name) = true
        · exact absurd (hiff.mpr hb') hs
        · simpa using hb'
      simp [hs, hb]
  have hmap : s.results.countP (fun x => existsNonzero fs0 (localPath cfg x.file.name)) =
      (s.results.map FileResult.file).countP
        (fun f => existsNonzero fs0 (localPath cfg f.name)) := by
    rw [List.countP_map]
    rfl
  rw [hc, hcong, hmap, (done_results_perm h hd).countP_eq]

/-- A file that pre-existed non-empty is never fetched and its local file is
untouched by a run over a manifest with distinct local names. -/
theorem done_preexisting {cfg : PoolCfg} {dl : String → Except String String}
    {manifest : List FileDesc} {fs0 : Fs} {s : PoolState}
    (hnd : (manifest.map FileDesc.name).Nodup)
    (h : PoolReach cfg dl (initState manifest fs0) s) (hd : PoolDone s)
    (f : FileDesc) (hf : f ∈ manifest)
    (hpre : existsNonzero fs0 (localPath cfg f.name) = true) :
    s.fs (localPath cfg f.name) = fs0 (localPath cfg f.name) ∧ f.name ∉ s.fetches := by
  have hinv := reach_poolInv hnd h
  constructor
  · apply hinv.fs_pres
    intro x hx hxdl heqp
    have hname : f.name = x.file.name := localPath_inj heqp
    obtain ⟨y, hy, hyf⟩ := List.mem_map.mp ((done_results_perm h hd).mem_iff.mpr hf)
    have hyskip : y.status = DlStatus.skipped := by
      apply (hinv.res_skip y hy).mpr
      rw [hyf]
      exact hpre
    have hxy : x = y := by
      apply done_results_inj hnd h hd x hx y hy
      rw [← hname, hyf]
    rw [hxy, hyskip] at hxdl
    cases hxdl
  · intro hmem
    have := hinv.fet f.name hmem
    rw [hpre] at this
    cases this

/-- After a finished failure-free run with non-empty downloaded contents over
a manifest with distinct local names, every manifest file exists non-empty. -/
theorem done_all_present {cfg : PoolCfg} {dl : String → Except String String}
    {manifest : List FileDesc} {fs0 : Fs} {s : PoolState}
    (hnd : (manifest.map FileDesc.name).Nodup)
    (h : PoolReach cfg dl (initState manifest fs0) s) (hd : PoolDone s)
    (hf0 : s.failed = 0)
    (hcontent : ∀ f ∈ manifest, ∀ c, dl f.rpath = Except.ok c → 0 < c.length) :
    ∀ f ∈ manifest, existsNonzero s.fs (localPath cfg f.name) = true := by
  intro f hf
  have hinv := reach_poolInv hnd h
  obtain ⟨y, hy, hyf⟩ := List.mem_map.mp ((done_results_perm h hd).mem_iff.mpr hf)
  have hnofail : y.status ≠ DlStatus.failed := by
    intro hyfail
    have hcf := (reach_counts h).2.2
    rw [hf0] at hcf
    have := List.countP_eq_zero.mp hcf.symm y hy
    simp [hyfail] at this
  cases hys : y.status with
  | downloaded =>
    obtain ⟨c, hcdl, hcfs⟩ := hinv.res_dl y hy hys
    have hlen : 0 < c.length := by
      apply hcontent y.file _ c hcdl
      rw [hyf]
      exact hf
    rw [hyf] at hcfs
    unfold existsNonzero
    rw [hcfs]
    simpa using hlen
  | skipped =>
    have hpre := (hinv.res_skip y hy).mp hys
    have hfs : s.fs (localPath cfg y.file.name) = fs0 (localPath cfg y.file.name) := by
      apply hinv.fs_pres
      intro x hx hxdl heqp
      have hxy : x = y := by
        apply done_results_inj hnd h hd x hx y hy
        exact (localPath_inj heqp).symm
      rw [hxy, hys] at hxdl
      cases hxdl
    rw [hyf] at hpre hfs
    unfold existsNonzero at hpre ⊢
    rw [hfs]
    exact hpre
  | failed => exact absurd hys hnofail

/-! ### A second run over an all-present manifest only skips -/

def AllSkip (fs1 : Fs) (s : PoolState) : Prop :=
  s.fs = fs1 ∧ (∀ t ∈ s.inflight, t.kind = TaskKind.skip) ∧
  s.downloaded = 0 ∧ s.failed = 0 ∧ s.fetches = []

theorem allskip_step {cfg : PoolCfg} {dl : String → Except String String}
    {manifest : List FileDesc} {fs1 : Fs} {s s' : PoolState}
    (hall : ∀ f ∈ manifest, existsNonzero fs1 (localPath cfg f.name) = true)
    (hr : PoolReach cfg dl (initState manifest fs1) s)
    (hs : PoolStep cfg dl s s') (ih : AllSkip fs1 s) : AllSkip fs1 s' := by
  obtain ⟨ihfs, ihk, ihd, ihf, ihfet⟩ := ih
  cases hs with
  | start f q hq hc =>
    have hfmem : f ∈ manifest := by
      refine (reach_perm hr).mem_iff.mp ?_
      rw [PoolFiles]
      refine List.mem_append.mpr (Or.inl (List.mem_append.mpr (Or.inl ?_)))
      rw [hq]
      exact List.mem_cons_self f q
    have hk : (mkTask cfg s.fs f).kind = TaskKind.skip := by
      simp only [mkTask]
      rw [ihfs, hall f hfmem]
      simp
    refine ⟨ihfs, ?_, ihd, ihf, ?_⟩
    · intro t ht
      simp only [startTask, List.mem_append, List.mem_singleton] at ht
      rcases ht with ht | ht
      · exact ihk t ht
      · rw [ht]
        exact hk
    · simp only [startTask]
      rw [hk]
      simp [ihfet]
  | complete t l r hin =>
    have hk : t.kind = TaskKind.skip := by
      apply ihk t
      rw [hin]
      exact List.mem_append.mpr (Or.inr (List.mem_cons_self t r))
    rcases completeTask_cases cfg dl { s with inflight := l ++ r } t with
      ⟨_, heq⟩ | ⟨c, hk2, _, heq⟩ | ⟨e, hk2, _, heq⟩
    · rw [heq]
      refine ⟨ihfs, ?_, ihd, ihf, ihfet⟩
      intro u hu
      apply ihk u
      rw [hin]
      rcases List.mem_append.mp hu with hu | hu
      · exact List.mem_append.mpr (Or.inl hu)
      · exact List.mem_append.mpr (Or.inr (List.mem_cons_of_mem _ hu))
    · rw [hk] at hk2
      cases hk2
    · rw [hk] at hk2
      cases hk2

theorem reach_allskip {cfg : PoolCfg} {dl : String → Except String String}
    {manifest : List FileDesc} {fs1 : Fs} {s : PoolState}
    (hall : ∀ f ∈ manifest, existsNonzero fs1 (localPath cfg f.name) = true)
    (h : PoolReach cfg dl (initState manifest fs1) s) : AllSkip fs1 s := by
  induction h with
  | refl =>
    refine ⟨rfl, ?_, rfl, rfl, rfl⟩
    intro t ht
    cases ht
  | tail hr hs ih => exact allskip_step hall hr hs ih

/-- Progress: with a positive concurrency width, a pool state that is not done
can always take a step (the loop at lines 281-291 never deadlocks). -/
theorem pool_progress {cfg : PoolCfg} {dl : String → Except String String}
    {s : PoolState} (hc : 0 < cfg.concurrency) (hnd : ¬ PoolDone s) :
    ∃ s', PoolStep cfg dl s s' := by
  by_cases hq : s.queue = []
  · have hne : s.inflight ≠ [] := fun h2 => hnd ⟨hq, h2⟩
    obtain ⟨t, r, ht⟩ := List.exists_cons_of_ne_nil hne
    exact ⟨_, PoolStep.complete s t [] r ht⟩
  · obtain ⟨f, q, hfq⟩ := List.exists_cons_of_ne_nil hq
    by_cases hin : s.inflight.length < cfg.concurrency
    · exact ⟨_, PoolStep.start s f q hfq hin⟩
    · have hne : s.inflight ≠ [] := by
        intro h2
        rw [h2] at hin
        simp only [List.length_nil] at hin
        omega
      obtain ⟨t, r, ht⟩ := List.exists_cons_of_ne_nil hne
      exact ⟨_, PoolStep.complete s t [] r ht⟩

/-! ## Metadata syncer (`downloadMeta`, lines 151-187)

The fetch outcome (`fetchWithRetry` + `response.text()`) is abstracted as an
`Except`: `.ok content` when the index was fetched, `.error e` when the fetch
threw after exhausting its retries.  The function always consults the fetch
outcome — there is no skip-if-exists shortcut. -/

inductive MetaStatus where
  | newFile
  | updated
  | unchanged
  | cachedFallback
  | missing
deriving Repr, DecidableEq

structure MetaOut where
  path : Option FilePath'
  fs : Fs
  status : MetaStatus

/-- Lines 160-186: on a successful fetch, compare with any existing local copy
(`readFileSync`, line 168): identical content returns early without writing;
otherwise the file is (over)written.  On a failed fetch, fall back to the
cached copy when one exists, else report the index as unavailable (`null`). -/
def downloadMeta (fetched : Except String String) (fs : Fs) (p : FilePath') : MetaOut :=
  match fetched with
  | .ok content =>
    match fs p with
    | some existing =>
      if existing = content then ⟨some p, fs, .unchanged⟩
      else ⟨some p, fsUpdate fs p content, .updated⟩
    | none => ⟨some p, fsUpdate fs p content, .newFile⟩
  | .error _ =>
    match fs p with
    | some _ => ⟨some p, fs, .cachedFallback⟩
    | none => ⟨none, fs, .missing⟩

/-! ## Metadata entries and the verifier (`verifyDownloads`, lines 393-433) -/

/-- One parsed JSONL record, reduced to the only field the sync uses: the
`pdf_file` value (absent field modelled as `none`). -/
structure MetaEntry where
  pdf_file : Option String
deriving Repr, DecidableEq

/-- JavaScript truthiness of a `pdf_file` value: `undefined` and the empty
string are falsy (`filter(Boolean)`, line 409, and `filter(m => m.pdf_file)`,
line 220). -/
def jsTruthy (o : Option String) : Bool :=
  match o with
  | some v => !(v == "")
  | none => false

/-- `meta.map(m => m.pdf_file).filter(Boolean)` (line 409): the declared file
names, keeping only truthy values. -/
def expectedFiles (meta : List MetaEntry) : List String :=
  ((meta.map MetaEntry.pdf_file).filter jsTruthy).filterMap id

structure VerifyOut where
  expected : Option Nat
  found : Nat
  missing : List String
  extra : List String
deriving Repr, DecidableEq

/-- Lines 393-433.  `dirFiles` is the `readdirSync` listing of the period's
PDF directory (`dirExists = false` models a missing directory).  The
`Set` built at line 404 is modelled by `dedup` (readdir listings never repeat
a name, so this is the same set).  The `extra` list (line 412) is logged
rather than returned by the source; we keep it in the result record. -/
def verifyDownloads (dirExists : Bool) (dirFiles : List String)
    (meta : Option (List MetaEntry)) : VerifyOut :=
  if !dirExists then ⟨some 0, 0, [], []⟩
  else
    let dset := dirFiles.dedup
    match meta with
    | some entries =>
      let expected := expectedFiles entries
      ⟨some expected.length, dset.length,
       expected.filter (fun f => !dset.contains f),
       dset.filter (fun f => !expected.contains f)⟩
    | none => ⟨none, dset.length, [], []⟩

/-! ## Paginated listing (`listFiles`, lines 81-119)

Each server response is a `PageResp`: the JSON items plus the cursor extracted
from the `Link` header (lines 95-102).  The loop consumes responses in order;
modelling the response sequence as a list, the function stops — leaving the
remaining responses unrequested — exactly when a response has no next cursor
or fewer than 1000 items (line 109). -/

structure TreeItem where
  type : String
  path : String
deriving Repr, DecidableEq

structure PageResp where
  items : List TreeItem
  nextCursor : Option String
deriving Repr, DecidableEq

def pageFiles (p : PageResp) : List TreeItem :=
  p.items.filter (fun it => it.type == "file")

def listFiles : List PageResp → List TreeItem
  | [] => []
  | p :: rest =>
    if p.nextCursor.isNone || decide (p.items.length < 1000) then pageFiles p
    else pageFiles p ++ listFiles rest

/-- `path.basename` on a `/`-separated remote path (line 230): the characters
after the last `/`. -/
def basename (s : String) : String :=
  String.mk ((s.data.reverse.takeWhile (fun c => !(c == '/'))).reverse)

/-- The manifest-resolution phase of `downloadPdfs` (lines 214-239): prefer the
meta file (entries with a truthy `pdf_file`, lines 219-224); otherwise fall
back to the listing API (lines 228-231); if the listing call throws, resolution
produces no manifest (`none`) and `downloadPdfs` returns the zero summary
(lines 232-235). -/
def resolvePdfList (remotePath : String) (meta : Option (List MetaEntry))
    (api : Except String (List PageResp)) : Option (List FileDesc) :=
  match meta with
  | some entries =>
    some (((entries.filter (fun m => jsTruthy m.pdf_file)).filterMap
            MetaEntry.pdf_file).map
          (fun n => ⟨remotePath ++ "/" ++ n, n⟩))
  | none =>
    match api with
    | .ok pages => some ((listFiles pages).map (fun it => ⟨it.path, basename it.path⟩))
    | .error _ => none

structure PdfOutcome where
  downloaded : Nat
  skipped : Nat
  failed : Nat
  files : List FileResult
deriving Repr, DecidableEq

def emptyOutcome : PdfOutcome := ⟨0, 0, 0, []⟩

/-- The observable outcomes of a `downloadPdfs` call: the zero summary when no
manifest could be resolved or it is empty (lines 234, 238-239), and otherwise
the counters of any finished pool run over the resolved manifest. -/
inductive DownloadPdfsOut (cfg : PoolCfg) (dl : String → Except String String)
    (remotePath : String) (meta : Option (List MetaEntry))
    (api : Except String (List PageResp)) (fs0 : Fs) : PdfOutcome → Prop where
  | noManifest : resolvePdfList remotePath meta api = none →
      DownloadPdfsOut cfg dl remotePath meta api fs0 emptyOutcome
  | emptyManifest : resolvePdfList remotePath meta api = some [] →
      DownloadPdfsOut cfg dl remotePath meta api fs0 emptyOutcome
  | pool : (files : List FileDesc) → (s : PoolState) →
      resolvePdfList remotePath meta api = some files → files ≠ [] →
      PoolReach cfg dl (initState files fs0) s → PoolDone s →
      DownloadPdfsOut cfg dl remotePath meta api fs0
        ⟨s.downloaded, s.skipped, s.failed, s.results⟩

/-! ## Archive materializer (`downloadAndExtractZip`, lines 299-390) -/

inductive ZipStatus where
  | zskipped
  | zextracted
  | zfailed
deriving Repr, DecidableEq

structure ZipOut where
  status : ZipStatus
  extracted : Nat
  err : Option String
deriving Repr, DecidableEq

/-- `f.endsWith('.pdf')` (lines 310, 386), implemented over the character
list so that it evaluates. -/
def isPdfName (s : String) : Bool := s.data.reverse.take 4 == ['f', 'd', 'p', '.']

/-- Lines 299-390.  Inputs: the `.pdf`-filtered view comes from `dirFiles`
(the `readdirSync` of the PDF directory at entry, lines 309-315, empty list if
the directory is absent), `zipSize` is the size of an already-present ZIP
(lines 322-328), `zipFetch` the outcome of the streaming ZIP download (lines
330-363; a throw propagates out of the function — there is no catch around
it), `unzipExit` the exit status of the `unzip` subprocess (`execSync` throws
for any non-zero status; the catch at lines 377-384 returns a `failed` result
only when `error.status > 1`), and `afterFiles` the directory listing after
extraction (line 386). -/
def downloadAndExtractZip (pdfDirExists : Bool) (dirFiles : List String)
    (zipSize : Option Nat) (zipFetch : Except String Unit)
    (unzipExit : Nat) (unzipErrMsg : String) (afterFiles : List String) :
    Except String ZipOut :=
  if pdfDirExists ∧ 0 < (dirFiles.filter isPdfName).length then
    .ok ⟨.zskipped, (dirFiles.filter isPdfName).length, none⟩
  else
    let needsDownload :=
      match zipSize with
      | some n => decide (n = 0)
      | none => true
    match (if needsDownload then zipFetch else .ok ()) with
    | .error e => .error e
    | .ok _ =>
      if unzipExit = 0 ∨ unzipExit = 1 then
        .ok ⟨.zextracted, (afterFiles.filter isPdfName).length, none⟩
      else .ok ⟨.zfailed, 0, some unzipErrMsg⟩

/-! ## Size accounting (`calculateDownloadSize`, lines 436-451) -/

/-- Sum of the sizes of the files listed by `readdirSync` in the period's PDF
directory. -/
def calculateDownloadSize (fs : Fs) (dir : FilePath') (names : List String) : Nat :=
  (names.map (fun n => ((fs (dir ++ [n])).map String.length).getD 0)).sum

/-! ## The CLI entry point (`main`, lines 626-674) -/

/-- The `YYYY-MM` test of line 654: `/^\d{4}-\d{2}$/`. -/
def isValidMonth (s : String) : Bool :=
  match s.data with
  | [a, b, c, d, h, e, f] =>
    a.isDigit && b.isDigit && c.isDigit && d.isDigit && h == '-' && e.isDigit && f.isDigit
  | _ => false

/-- `CONFIG.defaultMonths` (line 27). -/
def defaultMonths : List String := ["2025-12", "2026-01"]

/-- `a.startsWith('--')`, implemented over the character list so that it
evaluates. -/
def isFlagArg (a : String) : Bool := a.data.take 2 == ['-', '-']

/-- `args.filter(a => !a.startsWith('--'))` (line 649). -/
def positionalArgs (args : List String) : List String :=
  args.filter (fun a => !(isFlagArg a))

/-- What `main` decides to do, computed before any network access: print the
usage text and exit 0 (lines 629-645), report a malformed month on standard
error and exit 1 (lines 653-658), or run one of the three modes over the
target months (lines 660-667). -/
inductive MainAction where
  | help
  | usageError (tok : String)
  | runVerify (months : List String)
  | runZip (months : List String)
  | runSync (months : List String)
deriving Repr, DecidableEq

/-- `months.length > 0 ? months : CONFIG.defaultMonths` (line 650). -/
def targetMonths (args : List String) : List String :=
  if 0 < (positionalArgs args).length then positionalArgs args else defaultMonths

/-- Lines 626-667 up to the first network access: flag handling, the
fallback to the default months, and month-format validation (which reports
the first offending token and exits). -/
def mainPlan (args : List String) : MainAction :=
  if args.contains "--help" || args.contains "-h" then .help
  else
    match (targetMonths args).find? (fun m => !isValidMonth m) with
    | some m => .usageError m
    | none =>
      if args.contains "--verify" then .runVerify (targetMonths args)
      else if args.contains "--zip" then .runZip (targetMonths args)
      else .runSync (targetMonths args)

/-- The process exit forced before any network activity: exit 0 for help,
exit 1 for a usage error, none otherwise (the run proceeds). -/
def immediateExit : MainAction → Option Nat
  | .help => some 0
  | .usageError _ => some 1
  | _ => none

/-- The message printed to standard error at line 655 for a malformed month. -/
def usageErrorMessage (tok : String) : String :=
  "Invalid month format: " ++ tok ++ " (expected YYYY-MM)"

/-! ## Claim theorems -/

/-- C3: for every URL (attempt oracle) and attempt budget `attempts ≥ 1`,
`fetchWithRetry` issues at most `attempts` requests; it retries on any thrown
error or non-2xx status with delay `delay × attemptIndex` between attempts;
if the first `k < attempts` attempts fail and attempt `k + 1` succeeds the
call returns that response after exactly `k + 1` requests and sleeps
`delay·1, …, delay·k`; if all `attempts` attempts fail, the last attempt's
error is propagated; and in the download pool a propagated error completes
only that one task as failed, leaving the queue, the remaining in-flight
tasks, the other counters and the filesystem untouched. -/
theorem C3_retry_policy {α : Type} (oracle : Nat → Attempt α) (delay attempts : Nat)
    (hatt : 1 ≤ attempts) :
    (fetchWithRetry oracle attempts delay).requests ≤ attempts ∧
    (∀ k, k < attempts → (∀ j, j < k → (attemptFail (oracle j)).isSome) →
      ∀ r : Response α, oracle k = .got r → r.ok = true →
      fetchWithRetry oracle attempts delay =
        ⟨Except.ok (some r), k + 1, (List.range' 1 k).map (fun j => delay * j)⟩) ∧
    ((∀ j, j < attempts → (attemptFail (oracle j)).isSome) →
      ∀ e, attemptFail (oracle (attempts - 1)) = some e →
      (fetchWithRetry oracle attempts delay).result = Except.error e ∧
      (fetchWithRetry oracle attempts delay).requests = attempts) ∧
    (∀ (cfg : PoolCfg) (dl : String → Except String String) (s : PoolState)
        (t : TaskState) (l r : List TaskState) (e : String),
      s.inflight = l ++ t :: r → t.kind = TaskKind.fetch →
      dl t.file.rpath = Except.error e →
      completeTask cfg dl { s with inflight := l ++ r } t =
        { s with inflight := l ++ r, failed := s.failed + 1,
                 results := s.results ++ [⟨t.file, .failed, some e⟩] }) := by
  refine ⟨?_, ?_, ?_, ?_⟩
  · have := fetchLoop_requests_le oracle delay attempts 0
    simpa [fetchWithRetry] using this
  · intro k hk hfail r ho hok
    have := fetchLoop_success oracle delay attempts k hk r ho hok hfail 0 (Nat.zero_le _)
    simpa [fetchWithRetry] using this
  · intro hfail e hlast
    have := fetchLoop_allfail oracle delay attempts hfail e hlast 0 (by omega)
    simpa [fetchWithRetry] using this
  · intro cfg dl s t l r e _hin hk hdl
    simp [completeTask, hk, hdl]

def c3Oracle : Nat → Attempt Unit :=
  fun i => if i = 0 then .thrown "ECONNRESET" else .got ⟨true, 200, "OK", ()⟩

theorem C3_retry_policy_witness :
    fetchWithRetry c3Oracle 3 1000 =
      ⟨Except.ok (some ⟨true, 200, "OK", ()⟩), 2,
       (List.range' 1 1).map (fun j => 1000 * j)⟩ ∧
    (fetchWithRetry c3Oracle 3 1000).requests ≤ 3 := by
  have h := C3_retry_policy c3Oracle 1000 3 (by omega)
  refine ⟨?_, h.1⟩
  refine h.2.1 1 (by omega) ?_ ⟨true, 200, "OK", ()⟩ rfl rfl
  intro j hj
  have hj0 : j = 0 := by omega
  rw [hj0]
  decide

/-- C10 (implicit): for `attempts ≥ 1`, `fetchWithRetry` either returns a
response whose `ok` flag is true or throws the last error — it never returns a
non-2xx response to its caller; with `attempts = 0` (the loop guard fails for
every non-positive budget) the loop body never runs and the call returns
`undefined` having issued no request. -/
theorem C10_fetch_result {α : Type} (oracle : Nat → Attempt α) (attempts delay : Nat) :
    (1 ≤ attempts →
      (∃ r, (fetchWithRetry oracle attempts delay).result = Except.ok (some r) ∧
        r.ok = true) ∨
      (∃ e, (fetchWithRetry oracle attempts delay).result = Except.error e)) ∧
    (attempts = 0 →
      (fetchWithRetry oracle attempts delay).result = Except.ok none ∧
      (fetchWithRetry oracle attempts delay).requests = 0) := by
  constructor
  · intro hatt
    match hres : (fetchWithRetry oracle attempts delay).result with
    | .ok none =>
      exact absurd hres (fetchLoop_ne_none oracle delay attempts 0 (by omega))
    | .ok (some r) =>
      exact Or.inl ⟨r, rfl, fetchLoop_ok_response oracle delay attempts 0 r hres⟩
    | .error e => exact Or.inr ⟨e, rfl⟩
  · intro h0
    rw [fetchWithRetry, fetchLoop_stop oracle delay attempts 0 (by omega)]
    exact ⟨rfl, rfl⟩

def c10Oracle : Nat → Attempt Unit :=
  fun _ => .got ⟨false, 503, "Service Unavailable", ()⟩

theorem C10_fetch_result_witness :
    ((∃ r, (fetchWithRetry c10Oracle 3 1000).result = Except.ok (some r) ∧ r.ok = true) ∨
     (∃ e, (fetchWithRetry c10Oracle 3 1000).result = Except.error e)) ∧
    ((fetchWithRetry c10Oracle 0 1000).result = Except.ok none ∧
     (fetchWithRetry c10Oracle 0 1000).requests = 0) :=
  ⟨(C10_fetch_result c10Oracle 3 1000).1 (by omega),
   (C10_fetch_result c10Oracle 0 1000).2 rfl⟩

/-- C4: `downloadMeta` always consults the fresh fetch outcome.  A successful
fetch whose content equals the cached copy reports unchanged, leaves the
filesystem untouched and returns the existing path; different or locally
absent content is written and the path returned; a failed fetch falls back to
the cached path when a local copy exists and yields `null` otherwise. -/
theorem C4_meta_sync (fs : Fs) (p : FilePath') :
    (∀ c, fs p = some c →
      downloadMeta (Except.ok c) fs p = ⟨some p, fs, MetaStatus.unchanged⟩) ∧
    (∀ c existing, fs p = some existing → existing ≠ c →
      downloadMeta (Except.ok c) fs p = ⟨some p, fsUpdate fs p c, MetaStatus.updated⟩) ∧
    (∀ c, fs p = none →
      downloadMeta (Except.ok c) fs p = ⟨some p, fsUpdate fs p c, MetaStatus.newFile⟩) ∧
    (∀ e c0, fs p = some c0 →
      downloadMeta (Except.error e) fs p = ⟨some p, fs, MetaStatus.cachedFallback⟩) ∧
    (∀ e, fs p = none →
      downloadMeta (Except.error e) fs p = ⟨none, fs, MetaStatus.missing⟩) := by
  refine ⟨?_, ?_, ?_, ?_, ?_⟩
  · intro c hc
    simp [downloadMeta, hc]
  · intro c existing hc hne
    simp [downloadMeta, hc, hne]
  · intro c hc
    simp [downloadMeta, hc]
  · intro e c0 hc
    simp [downloadMeta, hc]
  · intro e hc
    simp [downloadMeta, hc]

def c4Path : FilePath' := ["downloads", "meta", "2026", "2026-01.jsonl"]

def c4Fs : Fs := fun p => if p = c4Path then some "cached" else none

theorem C4_meta_sync_witness :
    downloadMeta (Except.ok "cached") c4Fs c4Path =
      ⟨some c4Path, c4Fs, MetaStatus.unchanged⟩ ∧
    downloadMeta (Except.error "HTTP 404: Not Found") c4Fs c4Path =
      ⟨some c4Path, c4Fs, MetaStatus.cachedFallback⟩ ∧
    downloadMeta (Except.error "HTTP 404: Not Found") c4Fs ["downloads", "meta", "x"] =
      ⟨none, c4Fs, MetaStatus.missing⟩ := by
  refine ⟨?_, ?_, ?_⟩
  · exact (C4_meta_sync c4Fs c4Path).1 "cached" (by decide)
  · exact (C4_meta_sync c4Fs c4Path).2.2.2.1 "HTTP 404: Not Found" "cached" (by decide)
  · exact (C4_meta_sync c4Fs ["downloads", "meta", "x"]).2.2.2.2 "HTTP 404: Not Found"
      (by decide)

/-- C7: in a ZIP materialization that is not short-circuited (no PDFs already
present) and whose bundle download does not throw, exit status 1 of the
extraction utility is tolerated and the result status is `extracted`, while
any other non-zero exit status yields status `failed` with the error message;
in both cases the function returns normally (no exception), so the overall
run over the remaining periods continues. -/
theorem C7_zip_exit_status (pdfDirExists : Bool) (dirFiles : List String)
    (zipSize : Option Nat) (msg : String) (afterFiles : List String) (e : Nat)
    (hno : (dirFiles.filter isPdfName).length = 0) :
    (e = 1 →
      downloadAndExtractZip pdfDirExists dirFiles zipSize (Except.ok ()) e msg afterFiles =
        Except.ok ⟨ZipStatus.zextracted, (afterFiles.filter isPdfName).length, none⟩) ∧
    (2 ≤ e →
      downloadAndExtractZip pdfDirExists dirFiles zipSize (Except.ok ()) e msg afterFiles =
        Except.ok ⟨ZipStatus.zfailed, 0, some msg⟩) := by
  constructor
  · intro he
    unfold downloadAndExtractZip
    rw [hno]
    simp only [Nat.lt_irrefl, and_false, if_false]
    cases zipSize with
    | none => simp [he]
    | some n =>
      by_cases hz : n = 0
      · simp [hz, he]
      · simp [hz, he]
  · intro he
    unfold downloadAndExtractZip
    rw [hno]
    simp only [Nat.lt_irrefl, and_false, if_false]
    have h0 : ¬ (e = 0 ∨ e = 1) := by omega
    cases zipSize with
    | none => simp [h0]
    | some n =>
      by_cases hz : n = 0
      · simp [hz, h0]
      · simp [hz, h0]

theorem C7_zip_exit_status_witness :
    downloadAndExtractZip true [] (some 9000) (Except.ok ()) 1 "warning"
        ["a.pdf", "b.pdf"] =
      Except.ok ⟨ZipStatus.zextracted, 2, none⟩ ∧
    downloadAndExtractZip true [] (some 9000) (Except.ok ()) 2
        "Command failed: unzip" ["a.pdf", "b.pdf"] =
      Except.ok ⟨ZipStatus.zfailed, 0, some "Command failed: unzip"⟩ := by
  constructor
  · have h := (C7_zip_exit_status true [] (some 9000) "warning" ["a.pdf", "b.pdf"] 1
      (by decide)).1 rfl
    rw [h]
    rfl
  · exact (C7_zip_exit_status true [] (some 9000) "Command failed: unzip"
      ["a.pdf", "b.pdf"] 2 (by decide)).2 (by omega)

/-- C1: for every manifest processed by the download pool, at no reachable
state are more than the configured concurrency width tasks in flight; when
the pool loop finishes, every file descriptor has been classified as exactly
one of downloaded/skipped/failed — the counters sum to the manifest length
and the recorded results are a permutation of the manifest (nothing dropped,
nothing duplicated); and with a positive width the loop can always make
progress until it is done. -/
theorem C1_concurrency_and_completeness (cfg : PoolCfg)
    (dl : String → Except String String) (manifest : List FileDesc) (fs0 : Fs)
    (s : PoolState) (h : PoolReach cfg dl (initState manifest fs0) s) :
    s.inflight.length ≤ cfg.concurrency ∧
    (PoolDone s →
      s.downloaded + s.skipped + s.failed = manifest.length ∧
      (s.results.map FileResult.file).Perm manifest) ∧
    (0 < cfg.concurrency → ¬ PoolDone s → ∃ s', PoolStep cfg dl s s') :=
  ⟨reach_inflight_le h,
   fun hd => ⟨done_counts_sum h hd, done_results_perm h hd⟩,
   fun hc hnd => pool_progress hc hnd⟩

def c1Cfg : PoolCfg := ⟨["downloads", "pdf", "2026", "2026-01"], 5⟩

def c1File : FileDesc := ⟨"pdf/2026/2026-01/a.pdf", "a.pdf"⟩

def c1Dl : String → Except String String := fun _ => Except.ok "PDF"

def c1Fs0 : Fs := fun _ => none

def c1S0 : PoolState := initState [c1File] c1Fs0

def c1S1 : PoolState := startTask c1Cfg c1S0 c1File []

def c1T : TaskState := ⟨c1File, TaskKind.fetch⟩

def c1S2 : PoolState :=
  completeTask c1Cfg c1Dl { c1S1 with inflight := ([] : List TaskState) ++ [] } c1T

theorem c1_reach : PoolReach c1Cfg c1Dl c1S0 c1S2 :=
  PoolReach.tail
    (PoolReach.tail PoolReach.refl (PoolStep.start c1S0 c1File [] rfl (by decide)))
    (PoolStep.complete c1S1 c1T [] [] (by decide))

theorem C1_concurrency_and_completeness_witness :
    c1S2.inflight.length ≤ c1Cfg.concurrency ∧
    (PoolDone c1S2 →
      c1S2.downloaded + c1S2.skipped + c1S2.failed = [c1File].length ∧
      (c1S2.results.map FileResult.file).Perm [c1File]) ∧
    (0 < c1Cfg.concurrency → ¬ PoolDone c1S2 → ∃ s', PoolStep c1Cfg c1Dl c1S2 s') :=
  C1_concurrency_and_completeness c1Cfg c1Dl [c1File] c1Fs0 c1S2 c1_reach

/-- C6: `listFiles` accumulates the file-typed entries page by page and stops
paginating exactly when a response carries no next cursor or yields fewer
than 1000 items; and when no metadata index is available and the listing call
itself fails, `downloadPdfs` yields the zero summary (0 downloaded/skipped/
failed, no files) rather than propagating the error. -/
theorem C6_listing_fallback (p : PageResp) (rest : List PageResp)
    (remotePath : String) (e : String) :
    ((p.nextCursor = none ∨ p.items.length < 1000) →
      listFiles (p :: rest) = pageFiles p) ∧
    (p.nextCursor.isSome → 1000 ≤ p.items.length →
      listFiles (p :: rest) = pageFiles p ++ listFiles rest) ∧
    resolvePdfList remotePath none (Except.error e) = none ∧
    (∀ (cfg : PoolCfg) (dl : String → Except String String) (fs0 : Fs)
        (out : PdfOutcome),
      DownloadPdfsOut cfg dl remotePath none (Except.error e) fs0 out →
      out = emptyOutcome) := by
  refine ⟨?_, ?_, rfl, ?_⟩
  · intro hstop
    rw [listFiles]
    rcases hstop with hc | hl
    · simp [hc]
    · simp [hl]
  · intro hc hl
    rw [listFiles]
    have h1 : p.nextCursor.isNone = false := by
      cases hx : p.nextCursor with
      | none =>
        rw [hx] at hc
        simp at hc
      | some c => rfl
    have h2 : ¬ (p.items.length < 1000) := by omega
    simp [h1, h2]
  · intro cfg dl fs0 out hout
    have h0 : resolvePdfList remotePath none (Except.error e) = none := rfl
    cases hout with
    | noManifest h => rfl
    | emptyManifest h =>
      rw [h0] at h
    | pool files s hres hne hr hd =>
      rw [h0] at hres
      cases hres

def c6Item : TreeItem := ⟨"file", "pdf/2026/2026-01/a.pdf"⟩

def c6DirItem : TreeItem := ⟨"directory", "pdf/2026/sub"⟩

def c6PageStop : PageResp := ⟨[c6Item, c6DirItem], none⟩

def c6PageMore : PageResp := ⟨List.replicate 1000 c6Item, some "cursorTok"⟩

def c6Cfg : PoolCfg := ⟨["downloads", "pdf", "2026", "2026-01"], 5⟩

def c6Dl : String → Except String String := fun _ => Except.ok "PDF"

def c6Fs0 : Fs := fun _ => none

theorem C6_listing_fallback_witness :
    listFiles [c6PageStop] = pageFiles c6PageStop ∧
    listFiles [c6PageMore, c6PageStop] = pageFiles c6PageMore ++ listFiles [c6PageStop] ∧
    resolvePdfList "pdf/2026/2026-01" none (Except.error "HTTP 404: Not Found") = none ∧
    (DownloadPdfsOut c6Cfg c6Dl "pdf/2026/2026-01" none
        (Except.error "HTTP 404: Not Found") c6Fs0 emptyOutcome →
      emptyOutcome = emptyOutcome) := by
  have h := C6_listing_fallback c6PageStop [] "pdf/2026/2026-01" "HTTP 404: Not Found"
  have h2 := C6_listing_fallback c6PageMore [c6PageStop] "pdf/2026/2026-01"
    "HTTP 404: Not Found"
  refine ⟨h.1 (Or.inl rfl), h2.2.1 rfl ?_, h.2.2.1, ?_⟩
  · show 1000 ≤ c6PageMore.items.length
    have hlen : c6PageMore.items.length = 1000 := by
      show (List.replicate 1000 c6Item).length = 1000
      rw [List.length_replicate]
    omega
  · intro hout
    exact h.2.2.2 c6Cfg c6Dl c6Fs0 emptyOutcome hout

/-- C9 (amended): provided the invocation does not request help (`--help` or
`-h`), any invocation whose positional arguments include a token not matching
the `YYYY-MM` pattern resolves to a usage error naming such a token and exits
with status 1 before any network activity (the run actions are never
reached); invocations whose positional tokens are all well-formed proceed
past validation. -/
theorem C9_month_validation (args : List String)
    (hh1 : args.contains "--help" = false) (hh2 : args.contains "-h" = false) :
    ((∃ t ∈ positionalArgs args, isValidMonth t = false) →
      ∃ t, t ∈ positionalArgs args ∧ isValidMonth t = false ∧
        mainPlan args = MainAction.usageError t ∧
        immediateExit (mainPlan args) = some 1) ∧
    ((∀ m ∈ positionalArgs args, isValidMonth m = true) →
      immediateExit (mainPlan args) = none) := by
  constructor
  · intro hex
    obtain ⟨t0, ht0, hv0⟩ := hex
    have hlen : 0 < (positionalArgs args).length := by
      cases hp : positionalArgs args with
      | nil =>
        rw [hp] at ht0
        cases ht0
      | cons a l =>
        simp [hp]
    have htarget : targetMonths args = positionalArgs args := by
      rw [targetMonths, if_pos hlen]
    have hfind : ((targetMonths args).find? (fun m => !isValidMonth m)).isSome := by
      rw [htarget, List.find?_isSome]
      exact ⟨t0, ht0, by simp [hv0]⟩
    obtain ⟨t, hfind_eq⟩ := Option.isSome_iff_exists.mp hfind
    have hplan : mainPlan args = MainAction.usageError t := by
      rw [mainPlan, hh1, hh2]
      rw [if_neg (by decide : ¬ ((false || false) = true))]
      rw [hfind_eq]
    refine ⟨t, ?_, ?_, hplan, by rw [hplan]; rfl⟩
    · rw [htarget] at hfind_eq
      exact List.mem_of_find?_eq_some hfind_eq
    · have := List.find?_some hfind_eq
      simpa using this
  · intro hall
    have hfind : (targetMonths args).find? (fun m => !isValidMonth m) = none := by
      rw [List.find?_eq_none]
      intro m hm
      rw [targetMonths] at hm
      by_cases hlen : 0 < (positionalArgs args).length
      · rw [if_pos hlen] at hm
        simp [hall m hm]
      · rw [if_neg hlen] at hm
        have hm' : m = "2025-12" ∨ m = "2026-01" := by
          simpa [defaultMonths] using hm
        have : isValidMonth m = true := by
          rcases hm' with hm' | hm' <;> rw [hm'] <;> decide
        simp [this]
    rw [mainPlan, hh1, hh2]
    rw [if_neg (by decide : ¬ ((false || false) = true))]
    rw [hfind]
    show immediateExit
      (if args.contains "--verify" = true then MainAction.runVerify (targetMonths args)
       else if args.contains "--zip" = true then MainAction.runZip (targetMonths args)
       else MainAction.runSync (targetMonths args)) = none
    by_cases hv : args.contains "--verify" = true
    · rw [if_pos hv]
      rfl
    · rw [if_neg hv]
      by_cases hz : args.contains "--zip" = true
      · rw [if_pos hz]
        rfl
      · rw [if_neg hz]
        rfl

/-- C9 counterexample: the invocation `--help 2024-x` has the malformed
positional token `2024-x`, yet the program prints the usage text and exits
with status 0 — it neither reports the token to standard error nor exits
non-zero, because the help check at line 629 precedes validation. -/
theorem C9_month_validation_counterexample :
    isValidMonth "2024-x" = false ∧
    "2024-x" ∈ positionalArgs ["--help", "2024-x"] ∧
    mainPlan ["--help", "2024-x"] = MainAction.help ∧
    immediateExit (mainPlan ["--help", "2024-x"]) = some 0 := by
  refine ⟨by decide, by decide, by decide, by decide⟩

theorem C9_month_validation_witness :
    (∃ t, t ∈ positionalArgs ["2024-1"] ∧ isValidMonth t = false ∧
      mainPlan ["2024-1"] = MainAction.usageError t ∧
      immediateExit (mainPlan ["2024-1"]) = some 1) ∧
    immediateExit (mainPlan ["2024-01", "2025-02"]) = none := by
  constructor
  · exact (C9_month_validation ["2024-1"] (by decide) (by decide)).1
      ⟨"2024-1", by decide, by decide⟩
  · exact (C9_month_validation ["2024-01", "2025-02"] (by decide) (by decide)).2
      (by decide)

theorem filterMap_id_length (L : List (Option String)) :
    ((L.filter jsTruthy).filterMap id).length = (L.filter jsTruthy).length := by
  induction L with
  | nil => rfl
  | cons o L ih =>
    cases o with
    | none => simpa [List.filter_cons, jsTruthy] using ih
    | some v =>
      by_cases hv : v = ""
      · simpa [List.filter_cons, jsTruthy, hv] using ih
      · simpa [List.filter_cons, jsTruthy, hv] using ih

/-- The number of declared files is the number of meta entries with a truthy
(present and non-empty) `pdf_file`. -/
theorem expected_count (meta : List MetaEntry) :
    (expectedFiles meta).length = meta.countP (fun m => jsTruthy m.pdf_file) := by
  rw [expectedFiles, filterMap_id_length, ← List.countP_eq_length_filter,
    List.countP_map]
  rfl

/-- C5 (amended): for a period with a metadata index and an existing local
PDF directory (whose listing, coming from `readdirSync`, has no duplicate
names), verification reports `expected` = the number of index entries
carrying a *non-empty* `pdf_file` field, `found` = the number of files in
the directory, `missing` = the declared names absent from the directory and
`extra` = the local names absent from the declared list. -/
theorem C5_verification (dirFiles : List String) (meta : List MetaEntry)
    (hnd : dirFiles.Nodup) :
    (verifyDownloads true dirFiles (some meta)).expected =
      some (meta.countP (fun m => jsTruthy m.pdf_file)) ∧
    (verifyDownloads true dirFiles (some meta)).found = dirFiles.length ∧
    (verifyDownloads true dirFiles (some meta)).missing =
      (expectedFiles meta).filter (fun f => !dirFiles.contains f) ∧
    (verifyDownloads true dirFiles (some meta)).extra =
      dirFiles.filter (fun f => !(expectedFiles meta).contains f) := by
  have hded : dirFiles.dedup = dirFiles := List.dedup_eq_self.mpr hnd
  refine ⟨?_, ?_, ?_, ?_⟩ <;>
    simp [verifyDownloads, hded, expected_count]

def c5Meta : List MetaEntry := [⟨some "A"⟩, ⟨some "B"⟩, ⟨some "C"⟩]

def c5Dir : List String := ["A", "C", "D"]

theorem C5_verification_witness :
    (verifyDownloads true c5Dir (some c5Meta)).expected = some 3 ∧
    (verifyDownloads true c5Dir (some c5Meta)).found = 3 ∧
    (verifyDownloads true c5Dir (some c5Meta)).missing = ["B"] ∧
    (verifyDownloads true c5Dir (some c5Meta)).extra = ["D"] := by
  have h := C5_verification c5Dir c5Meta (by decide)
  refine ⟨?_, ?_, ?_, ?_⟩
  · rw [h.1]
    decide
  · rw [h.2.1]
    decide
  · rw [h.2.2.1]
    decide
  · rw [h.2.2.2]
    decide

/-- C5 counterexample: an index entry may carry the `pdf_file` field with the
empty string as value; it counts as an entry carrying the field, yet
`filter(Boolean)` drops it, so the reported `expected` is 0, not 1. -/
theorem C5_verification_counterexample :
    ([({ pdf_file := some "" } : MetaEntry)].countP (fun m => m.pdf_file.isSome)) = 1 ∧
    (verifyDownloads true [] (some [({ pdf_file := some "" } : MetaEntry)])).expected =
      some 0 := by
  constructor <;> decide

/-- C2 (amended): for a manifest whose local file names are pairwise
distinct, with `M` = the number of descriptors whose target local file
already exists with non-zero size, any finished pool run yields exactly `M`
skipped outcomes and `N − M` downloaded/failed outcomes, and for each of the
`M` pre-existing files no network fetch is issued and its local file is left
untouched. -/
theorem C2_resume_semantics (cfg : PoolCfg) (dl : String → Except String String)
    (manifest : List FileDesc) (fs0 : Fs) (s : PoolState)
    (hnd : (manifest.map FileDesc.name).Nodup)
    (h : PoolReach cfg dl (initState manifest fs0) s) (hd : PoolDone s) :
    s.skipped = manifest.countP (fun f => existsNonzero fs0 (localPath cfg f.name)) ∧
    s.downloaded + s.failed =
      manifest.length -
        manifest.countP (fun f => existsNonzero fs0 (localPath cfg f.name)) ∧
    (∀ f ∈ manifest, existsNonzero fs0 (localPath cfg f.name) = true →
      f.name ∉ s.fetches ∧
      s.fs (localPath cfg f.name) = fs0 (localPath cfg f.name)) := by
  have h1 := done_skipped_eq hnd h hd
  have h2 := done_counts_sum h hd
  have h3 : manifest.countP (fun f => existsNonzero fs0 (localPath cfg f.name)) ≤
      manifest.length := List.countP_le_length _
  refine ⟨h1, by omega, ?_⟩
  intro f hf hpre
  have hp := done_preexisting hnd h hd f hf hpre
  exact ⟨hp.2, hp.1⟩

def c2wCfg : PoolCfg := ⟨["downloads", "pdf", "2026", "2026-01"], 5⟩

def c2wFile : FileDesc := ⟨"pdf/2026/2026-01/a.pdf", "a.pdf"⟩

def c2wFs0 : Fs := fun p =>
  if p = ["downloads", "pdf", "2026", "2026-01", "a.pdf"] then some "OLD" else none

def c2wDl : String → Except String String := fun _ => Except.ok "PDF"

def c2wS0 : PoolState := initState [c2wFile] c2wFs0

def c2wS1 : PoolState := startTask c2wCfg c2wS0 c2wFile []

def c2wT : TaskState := ⟨c2wFile, TaskKind.skip⟩

def c2wS2 : PoolState :=
  completeTask c2wCfg c2wDl { c2wS1 with inflight := ([] : List TaskState) ++ [] } c2wT

theorem c2w_reach : PoolReach c2wCfg c2wDl c2wS0 c2wS2 :=
  PoolReach.tail
    (PoolReach.tail PoolReach.refl (PoolStep.start c2wS0 c2wFile [] rfl (by decide)))
    (PoolStep.complete c2wS1 c2wT [] [] (by decide))

theorem C2_resume_semantics_witness :
    c2wS2.skipped =
      [c2wFile].countP (fun f => existsNonzero c2wFs0 (localPath c2wCfg f.name)) ∧
    c2wS2.downloaded + c2wS2.failed =
      [c2wFile].length -
        [c2wFile].countP (fun f => existsNonzero c2wFs0 (localPath c2wCfg f.name)) ∧
    (∀ f ∈ [c2wFile], existsNonzero c2wFs0 (localPath c2wCfg f.name) = true →
      f.name ∉ c2wS2.fetches ∧
      c2wS2.fs (localPath c2wCfg f.name) = c2wFs0 (localPath c2wCfg f.name)) :=
  C2_resume_semantics c2wCfg c2wDl [c2wFile] c2wFs0 c2wS2 (by decide) c2w_reach
    ⟨by decide, by decide⟩

def c2Cfg : PoolCfg := ⟨["downloads", "pdf", "2026", "2026-01"], 5⟩

def c2Dl : String → Except String String := fun _ => Except.ok "PDF"

def c2Fs0 : Fs := fun _ => none

def c2F (n : String) : FileDesc := ⟨"pdf/2026/2026-01/" ++ n, n⟩

/-- A manifest of six descriptors in which the first and the last share the
local name `a.pdf` (e.g. duplicate metadata entries). -/
def c2Manifest : List FileDesc :=
  [c2F "a.pdf", c2F "b.pdf", c2F "c.pdf", c2F "d.pdf", c2F "e.pdf", c2F "a.pdf"]

def c2T (n : String) : TaskState := ⟨c2F n, TaskKind.fetch⟩

def c2TSkip : TaskState := ⟨c2F "a.pdf", TaskKind.skip⟩

def c2S0 : PoolState := initState c2Manifest c2Fs0

def c2S1 : PoolState :=
  startTask c2Cfg c2S0 (c2F "a.pdf")
    [c2F "b.pdf", c2F "c.pdf", c2F "d.pdf", c2F "e.pdf", c2F "a.pdf"]

def c2S2 : PoolState :=
  startTask c2Cfg c2S1 (c2F "b.pdf") [c2F "c.pdf", c2F "d.pdf", c2F "e.pdf", c2F "a.pdf"]

def c2S3 : PoolState :=
  startTask c2Cfg c2S2 (c2F "c.pdf") [c2F "d.pdf", c2F "e.pdf", c2F "a.pdf"]

def c2S4 : PoolState := startTask c2Cfg c2S3 (c2F "d.pdf") [c2F "e.pdf", c2F "a.pdf"]

def c2S5 : PoolState := startTask c2Cfg c2S4 (c2F "e.pdf") [c2F "a.pdf"]

def c2S6 : PoolState :=
  completeTask c2Cfg c2Dl
    { c2S5 with inflight :=
        [] ++ [c2T "b.pdf", c2T "c.pdf", c2T "d.pdf", c2T "e.pdf"] } (c2T "a.pdf")

def c2S7 : PoolState := startTask c2Cfg c2S6 (c2F "a.pdf") []

def c2S8 : PoolState :=
  completeTask c2Cfg c2Dl
    { c2S7 with inflight := [] ++ [c2T "c.pdf", c2T "d.pdf", c2T "e.pdf", c2TSkip] }
    (c2T "b.pdf")

def c2S9 : PoolState :=
  completeTask c2Cfg c2Dl
    { c2S8 with inflight := [] ++ [c2T "d.pdf", c2T "e.pdf", c2TSkip] } (c2T "c.pdf")

def c2S10 : PoolState :=
  completeTask c2Cfg c2Dl
    { c2S9 with inflight := [] ++ [c2T "e.pdf", c2TSkip] } (c2T "d.pdf")

def c2S11 : PoolState :=
  completeTask c2Cfg c2Dl { c2S10 with inflight := [] ++ [c2TSkip] } (c2T "e.pdf")

def c2S12 : PoolState :=
  completeTask c2Cfg c2Dl
    { c2S11 with inflight := ([] : List TaskState) ++ [] } c2TSkip

/-- An eager-fill schedule the loop at lines 281-291 can exhibit with
concurrency 5: the first five tasks start; the first download completes and
writes `a.pdf`; the freed slot starts the sixth descriptor, whose skip test
now sees the non-empty `a.pdf`; the remaining tasks complete. -/
theorem c2_reach : PoolReach c2Cfg c2Dl c2S0 c2S12 := by
  have p1 : PoolStep c2Cfg c2Dl c2S0 c2S1 :=
    PoolStep.start c2S0 (c2F "a.pdf")
      [c2F "b.pdf", c2F "c.pdf", c2F "d.pdf", c2F "e.pdf", c2F "a.pdf"] rfl (by decide)
  have p2 : PoolStep c2Cfg c2Dl c2S1 c2S2 :=
    PoolStep.start c2S1 (c2F "b.pdf")
      [c2F "c.pdf", c2F "d.pdf", c2F "e.pdf", c2F "a.pdf"] rfl (by decide)
  have p3 : PoolStep c2Cfg c2Dl c2S2 c2S3 :=
    PoolStep.start c2S2 (c2F "c.pdf") [c2F "d.pdf", c2F "e.pdf", c2F "a.pdf"] rfl
      (by decide)
  have p4 : PoolStep c2Cfg c2Dl c2S3 c2S4 :=
    PoolStep.start c2S3 (c2F "d.pdf") [c2F "e.pdf", c2F "a.pdf"] rfl (by decide)
  have p5 : PoolStep c2Cfg c2Dl c2S4 c2S5 :=
    PoolStep.start c2S4 (c2F "e.pdf") [c2F "a.pdf"] rfl (by decide)
  have p6 : PoolStep c2Cfg c2Dl c2S5 c2S6 :=
    PoolStep.complete c2S5 (c2T "a.pdf") []
      [c2T "b.pdf", c2T "c.pdf", c2T "d.pdf", c2T "e.pdf"] (by decide)
  have p7 : PoolStep c2Cfg c2Dl c2S6 c2S7 :=
    PoolStep.start c2S6 (c2F "a.pdf") [] rfl (by decide)
  have p8 : PoolStep c2Cfg c2Dl c2S7 c2S8 :=
    PoolStep.complete c2S7 (c2T "b.pdf") []
      [c2T "c.pdf", c2T "d.pdf", c2T "e.pdf", c2TSkip] (by decide)
  have p9 : PoolStep c2Cfg c2Dl c2S8 c2S9 :=
    PoolStep.complete c2S8 (c2T "c.pdf") [] [c2T "d.pdf", c2T "e.pdf", c2TSkip]
      (by decide)
  have p10 : PoolStep c2Cfg c2Dl c2S9 c2S10 :=
    PoolStep.complete c2S9 (c2T "d.pdf") [] [c2T "e.pdf", c2TSkip] (by decide)
  have p11 : PoolStep c2Cfg c2Dl c2S10 c2S11 :=
    PoolStep.complete c2S10 (c2T "e.pdf") [] [c2TSkip] (by decide)
  have p12 : PoolStep c2Cfg c2Dl c2S11 c2S12 :=
    PoolStep.complete c2S11 c2TSkip [] [] (by decide)
  exact PoolReach.tail (PoolReach.tail (PoolReach.tail (PoolReach.tail (PoolReach.tail
    (PoolReach.tail (PoolReach.tail (PoolReach.tail (PoolReach.tail (PoolReach.tail
    (PoolReach.tail (PoolReach.tail PoolReach.refl p1) p2) p3) p4) p5) p6) p7) p8)
    p9) p10) p11) p12

/-- C2 counterexample: with the duplicate-name manifest `c2Manifest` and no
pre-existing local files (`M = 0`), the schedule above finishes with one
skipped outcome — the sixth descriptor is skipped because the first
descriptor's completed download created its target file mid-run — so "a run
yields exactly M skipped outcomes" fails for manifests with repeated local
names. -/
theorem C2_resume_semantics_counterexample :
    PoolReach c2Cfg c2Dl (initState c2Manifest c2Fs0) c2S12 ∧
    PoolDone c2S12 ∧
    c2Manifest.countP (fun f => existsNonzero c2Fs0 (localPath c2Cfg f.name)) = 0 ∧
    c2S12.skipped = 1 ∧ c2S12.downloaded = 5 ∧ c2S12.failed = 0 :=
  ⟨c2_reach, ⟨by decide, by decide⟩, by decide, by decide, by decide, by decide⟩

/-- C8 (amended): over a manifest with pairwise-distinct local names, if the
first finished sync run has no failed files and every downloaded content is
non-empty, then any second finished run over the unchanged remote (same
download oracle) classifies every file as skipped, downloads nothing, fails
nothing, leaves the filesystem — and hence the per-period byte size recorded
in the summary — unchanged, and the unchanged remote metadata index is
reported `unchanged` without a rewrite, so the second run resolves the same
manifest. -/
theorem C8_idempotent_second_run (cfg : PoolCfg) (dl : String → Except String String)
    (manifest : List FileDesc) (fs0 : Fs) (s1 s2 : PoolState)
    (hnd : (manifest.map FileDesc.name).Nodup)
    (hcontent : ∀ f ∈ manifest, ∀ c, dl f.rpath = Except.ok c → 0 < c.length)
    (h1 : PoolReach cfg dl (initState manifest fs0) s1) (hd1 : PoolDone s1)
    (hf1 : s1.failed = 0)
    (h2 : PoolReach cfg dl (initState manifest s1.fs) s2) (hd2 : PoolDone s2) :
    s2.downloaded = 0 ∧ s2.skipped = manifest.length ∧ s2.failed = 0 ∧
    s2.fs = s1.fs ∧
    (∀ dir names, calculateDownloadSize s2.fs dir names =
      calculateDownloadSize s1.fs dir names) ∧
    (∀ c g p, g p = some c →
      downloadMeta (Except.ok c) g p = ⟨some p, g, MetaStatus.unchanged⟩) := by
  have hall := done_all_present hnd h1 hd1 hf1 hcontent
  obtain ⟨hfs, hk, hdw, hfl, hfet⟩ := reach_allskip hall h2
  have hsum := done_counts_sum h2 hd2
  refine ⟨hdw, by omega, hfl, hfs, ?_, ?_⟩
  · intro dir names
    rw [hfs]
  · intro c g p hg
    simp [downloadMeta, hg]

def c8Cfg : PoolCfg := ⟨["downloads", "pdf", "2026", "2026-01"], 5⟩

def c8File : FileDesc := ⟨"pdf/2026/2026-01/a.pdf", "a.pdf"⟩

def c8Dl : String → Except String String := fun _ => Except.ok "PDF"

def c8Fs0 : Fs := fun _ => none

def c8S0 : PoolState := initState [c8File] c8Fs0

def c8S1 : PoolState := startTask c8Cfg c8S0 c8File []

def c8TF : TaskState := ⟨c8File, TaskKind.fetch⟩

def c8R1 : PoolState :=
  completeTask c8Cfg c8Dl { c8S1 with inflight := ([] : List TaskState) ++ [] } c8TF

def c8S0b : PoolState := initState [c8File] c8R1.fs

def c8S1b : PoolState := startTask c8Cfg c8S0b c8File []

def c8TS : TaskState := ⟨c8File, TaskKind.skip⟩

def c8R2 : PoolState :=
  completeTask c8Cfg c8Dl { c8S1b with inflight := ([] : List TaskState) ++ [] } c8TS

theorem c8_reach1 : PoolReach c8Cfg c8Dl c8S0 c8R1 :=
  PoolReach.tail
    (PoolReach.tail PoolReach.refl (PoolStep.start c8S0 c8File [] rfl (by decide)))
    (PoolStep.complete c8S1 c8TF [] [] (by decide))

theorem c8_reach2 : PoolReach c8Cfg c8Dl c8S0b c8R2 :=
  PoolReach.tail
    (PoolReach.tail PoolReach.refl (PoolStep.start c8S0b c8File [] rfl (by decide)))
    (PoolStep.complete c8S1b c8TS [] [] (by decide))

theorem C8_idempotent_second_run_witness :
    c8R2.downloaded = 0 ∧ c8R2.skipped = [c8File].length ∧ c8R2.failed = 0 ∧
    c8R2.fs = c8R1.fs ∧
    (∀ dir names, calculateDownloadSize c8R2.fs dir names =
      calculateDownloadSize c8R1.fs dir names) ∧
    (∀ c g p, g p = some c →
      downloadMeta (Except.ok c) g p = ⟨some p, g, MetaStatus.unchanged⟩) :=
  C8_idempotent_second_run c8Cfg c8Dl [c8File] c8Fs0 c8R1 c8R2 (by decide)
    (by
      intro f hf c hc
      cases hc
      decide)
    c8_reach1 ⟨by decide, by decide⟩ (by decide) c8_reach2 ⟨by decide, by decide⟩

def c8cDl : String → Except String String :=
  fun _ => Except.error "HTTP 500: Internal Server Error"

def c8cS0 : PoolState := initState [c8File] c8Fs0

def c8cS1 : PoolState := startTask c8Cfg c8cS0 c8File []

def c8cR1 : PoolState :=
  completeTask c8Cfg c8cDl { c8cS1 with inflight := ([] : List TaskState) ++ [] } c8TF

def c8cS0b : PoolState := initState [c8File] c8cR1.fs

def c8cS1b : PoolState := startTask c8Cfg c8cS0b c8File []

def c8cR2 : PoolState :=
  completeTask c8Cfg c8cDl { c8cS1b with inflight := ([] : List TaskState) ++ [] } c8TF

/-- C8 counterexample: if the only file's download fails in the first run
(the remote is unchanged, the fetch simply keeps failing), the second run
classifies it failed again, not skipped — so "on the second run every file in
the manifest is classified skipped" does not hold for runs with failures. -/
theorem C8_idempotent_second_run_counterexample :
    PoolReach c8Cfg c8cDl (initState [c8File] c8Fs0) c8cR1 ∧ PoolDone c8cR1 ∧
    PoolReach c8Cfg c8cDl (initState [c8File] c8cR1.fs) c8cR2 ∧ PoolDone c8cR2 ∧
    c8cR2.skipped = 0 ∧ c8cR2.failed = 1 ∧ c8cR2.downloaded = 0 := by
  refine ⟨?_, ⟨by decide, by decide⟩, ?_, ⟨by decide, by decide⟩, by decide, by decide,
    by decide⟩
  · exact PoolReach.tail
      (PoolReach.tail PoolReach.refl (PoolStep.start c8cS0 c8File [] rfl (by decide)))
      (PoolStep.complete c8cS1 c8TF [] [] (by decide))
  · exact PoolReach.tail
      (PoolReach.tail PoolReach.refl (PoolStep.start c8cS0b c8File [] rfl (by decide)))
      (PoolStep.complete c8cS1b c8TF [] [] (by decide))

end SyncRatchakitcha
